import Mathlib

/-!
mygofmt: blank-line removal through the line table.

A shallow embedding of `src/main.go`.  The program never edits text or the syntax
tree: it calls `MergeLine` on the `go/token` line table of the parsed file, and the
printer later reads vertical spacing off that table.

* `File`, `Line`, `MergeLine`, `AddLineInfo` embed the part of `go/token.File` the
  program relies on; offsets are relative to the file base.  `Line` is the adjusted
  line number of `Position(p).Line`, i.e. it follows `//line` directives.
* `rmEmptyRowInsideBrace`, `importLoop` (the `for … range astFile.Imports` loop),
  `processFile` and `run` are translated from `src/main.go`.
* A panic is the result `none`.
-/

namespace MyGoFmt

/-! ## The line table (`go/token.File`) -/

/-- An alternative position recorded for a `//line` directive (`token.lineInfo`):
from offset `Offset` on, line numbers are counted from `Line`.  The file name and the
column of the directive are not read by `token.File.Line` and are left out. -/
structure lineInfo where
  Offset : Nat
  Line : Nat
deriving DecidableEq, Repr

/-- The line table of one file (`token.File`): `size` is the length of the source in
bytes, `lines` holds the offset of the first byte of every line and `infos` the
alternative positions of the `//line` directives. -/
structure File where
  size : Nat
  lines : List Nat
  infos : List lineInfo
deriving DecidableEq, Repr

/-- The invariant `go/token` keeps: the first entry of `lines` is `0`, the entries
are strictly increasing, every entry added by `AddLine` is below `size`, and the
offsets of `infos` are strictly increasing and below `size` (`AddLineInfo`). -/
def File.WF (f : File) : Prop :=
  f.lines.head? = some 0 ∧ f.lines.Pairwise (· < ·) ∧ (∀ s ∈ f.lines.tail, s < f.size) ∧
    f.infos.Pairwise (fun a b => a.Offset < b.Offset) ∧ ∀ a ∈ f.infos, a.Offset < f.size

instance (f : File) : Decidable f.WF := by
  unfold File.WF; infer_instance

/-- The unadjusted line of offset `p`: `searchInts(f.lines, p) + 1`, the number of
line starts that are `≤ p` (`0` when there is none). -/
def rawLine (f : File) (p : Nat) : Nat :=
  f.lines.countP (fun s => decide (s ≤ p))

/-- `searchLineInfos`: the last alternative position recorded at or before `x`. -/
def searchLineInfos (infos : List lineInfo) (x : Nat) : Option lineInfo :=
  (infos.filter (fun a => decide (a.Offset ≤ x))).getLast?

/-- `token.File.Line`, i.e. `Position(p).Line` (`unpack` with `adjusted = true`) on a
file offset: the unadjusted line, unless a `//line` directive precedes `p`; then the
line of the directive plus the distance in lines from the place it was recorded. -/
def Line (f : File) (p : Nat) : Nat :=
  match searchLineInfos f.infos p with
  | none => rawLine f p
  | some alt =>
    if rawLine f alt.Offset ≥ 1 then alt.Line + (rawLine f p - rawLine f alt.Offset)
    else rawLine f p

/-- `token.File.MergeLine`: merges line `line` with the following one by deleting
`lines[line]`, the start of line `line + 1`.  It panics (`none`) when `line < 1` or
`line ≥ len(lines)`.  (A Go argument `Line(..) - 1` is never below `-1`, and the
truncated `0 - 1 = 0` is rejected like `-1` would be.) -/
def MergeLine (f : File) (line : Nat) : Option File :=
  if line < 1 then none
  else if line ≥ f.lines.length then none
  else some { f with lines := f.lines.eraseIdx line }

/-- `token.File.AddLineInfo`, which the scanner calls for a directive `//line x.go:n`
with the offset of the line after the comment and `n`. -/
def AddLineInfo (f : File) (offset line : Nat) : File :=
  if (∀ a ∈ f.infos.getLast?, a.Offset < offset) ∧ offset < f.size then
    { f with infos := f.infos ++ [⟨offset, line⟩] }
  else f

/-- Line starts the scanner records while reading the source from offset `off`: one
after every newline, kept by `AddLine` only when it is below the file size. -/
def scanLines (size : Nat) : Nat → List Char → List Nat
  | _, [] => []
  | off, c :: cs =>
    if c = '\n' ∧ off + 1 < size then (off + 1) :: scanLines size (off + 1) cs
    else scanLines size (off + 1) cs

/-- The line table the parser hands over for an (ASCII) source text, before the
alternative positions of its `//line` directives, if any, are added. -/
def File.ofSource (src : List Char) : File :=
  ⟨src.length, 0 :: scanLines src.length 0 src, []⟩

/-! ## Syntax-tree anchors (`go/ast`) -/

/-- The offsets of an `ast.BlockStmt`: its two braces. -/
structure BlockStmt where
  Lbrace : Nat
  Rbrace : Nat
deriving DecidableEq, Repr

/-- `BlockStmt.Pos`: the offset of the opening brace. -/
def BlockStmt.Pos (bl : BlockStmt) : Nat := bl.Lbrace

/-- `BlockStmt.End`: the offset right after the closing brace. -/
def BlockStmt.End (bl : BlockStmt) : Nat := bl.Rbrace + 1

/-- The span of an `ast.ImportSpec`: `Pos` is its first byte and `End` the offset
right after its path literal. -/
structure ImportSpec where
  Pos : Nat
  End : Nat
deriving DecidableEq, Repr

/-- What `processFile` reads of a parsed file: its line table, `astFile.Imports` and
the block statements in the order `ast.Inspect` visits them. -/
structure ParsedFile where
  tokenFile : File
  Imports : List ImportSpec
  Blocks : List BlockStmt
deriving DecidableEq, Repr

/-! ## `src/main.go` -/

/-- `rmEmptyRowInsideBrace` (main.go:110-113): two merges, the second reading the
line of the block end from the table as left by the first. -/
def rmEmptyRowInsideBrace (f : File) (bl : BlockStmt) : Option File :=
  match MergeLine f (Line f bl.Pos) with
  | none => none
  | some f1 => MergeLine f1 (Line f1 bl.End - 1)

/-- The import loop of `processFile` (main.go:93-95): for every spec of
`astFile.Imports`, in list order, `tokenFile.MergeLine(tokenFile.Line(v.End()))`. -/
def importLoop (f : File) : List ImportSpec → Option File
  | [] => some f
  | v :: vs =>
    match MergeLine f (Line f v.End) with
    | none => none
    | some f1 => importLoop f1 vs

/-- The `ast.Inspect` walk of `processFile` (main.go:97-102) restricted to what it
does: `rmEmptyRowInsideBrace` on every block statement, in visiting order. -/
def inspectBlocks (f : File) : List BlockStmt → Option File
  | [] => some f
  | bl :: bls =>
    match rmEmptyRowInsideBrace f bl with
    | none => none
    | some f1 => inspectBlocks f1 bls

/-- `processFile` (main.go:84-107).  The parser (`conf.ParseFile`) and the printing
(`format.Node` followed by `imports.Process`, given the tree and the line table as
left by the merges) are parameters.  A parse error is returned; a panic of
`MergeLine` is not recovered and is the result `none`. -/
def processFile {Err Code : Type} (parseFile : String → Except Err ParsedFile)
    (print : String → ParsedFile → File → Except Err Code) (file : String) :
    Option (Except Err Code) :=
  match parseFile file with
  | .error err => some (.error err)
  | .ok astFile =>
    match importLoop astFile.tokenFile astFile.Imports with
    | none => none
    | some f1 =>
      match inspectBlocks f1 astFile.Blocks with
      | none => none
      | some f2 => some (print file astFile f2)

/-- What `run` does to the outside world: `ioutil.WriteFile(k, v, 0666)`,
`fmt.Println("// File: ", k)` and `fmt.Println(string(v))`. -/
inductive Effect (Code : Type) where
  | writeFile (name : String) (data : Code)
  | printName (name : String)
  | printCode (data : Code)
deriving DecidableEq, Repr

/-- `m[file] = code` on the map `m` of `run`, kept as an association list. -/
def mapSet {Code : Type} (m : List (String × Code)) (file : String) (code : Code) :
    List (String × Code) :=
  m.filter (fun kv => kv.1 ≠ file) ++ [(file, code)]

/-- First loop of `run` (main.go:56-63): process every file, collecting the results
in the map and the errors in `errs`; `none` when a call of `processFile` panics. -/
def processAll {Err Code : Type} (parseFile : String → Except Err ParsedFile)
    (print : String → ParsedFile → File → Except Err Code) :
    List String → List (String × Code) → List Err →
      Option (List (String × Code) × List Err)
  | [], m, errs => some (m, errs)
  | file :: files, m, errs =>
    match processFile parseFile print file with
    | none => none
    | some (.error err) => processAll parseFile print files m (errs ++ [err])
    | some (.ok code) => processAll parseFile print files (mapSet m file code) errs

/-- Second loop of `run` (main.go:69-79) over the map entries in the order `kvs`:
write or print each entry, collecting the write errors. -/
def commitAll {Err Code : Type} (writeFile : String → Code → Option Err)
    (writeToFile : Bool) :
    List (String × Code) → List Err → List (Effect Code) → List Err × List (Effect Code)
  | [], errs, out => (errs, out)
  | (k, v) :: kvs, errs, out =>
    if writeToFile then
      match writeFile k v with
      | some err =>
        commitAll writeFile writeToFile kvs (errs ++ [err]) (out ++ [Effect.writeFile k v])
      | none => commitAll writeFile writeToFile kvs errs (out ++ [Effect.writeFile k v])
    else
      commitAll writeFile writeToFile kvs errs
        (out ++ [Effect.printName k, Effect.printCode v])

/-- `run` (main.go:49-82).  The parser, the printing and `ioutil.WriteFile` are
parameters and `rangeOrder` is the order in which Go happens to range over the map.
The result is the returned error list, `none` when `run` does not return because
`processFile` panicked, together with the effects performed, in order. -/
def run {Err Code : Type} (parseFile : String → Except Err ParsedFile)
    (print : String → ParsedFile → File → Except Err Code)
    (writeFile : String → Code → Option Err)
    (rangeOrder : List (String × Code) → List (String × Code))
    (writeToFile : Bool) (files : List String) :
    Option (List Err) × List (Effect Code) :=
  match processAll parseFile print files [] [] with
  | none => (none, [])
  | some r =>
    if r.2.length > 0 then (some r.2, [])
    else
      let c := commitAll writeFile writeToFile (rangeOrder r.1) r.2 []
      (some c.1, c.2)

/-- The parser on the batch of the C3 example: `bad.go` does not parse, `one.go` is
`package p\nfunc f() {}\n` (one block, braces at 19 and 20) and every other file is
`package p\n\nfunc f() {\n\n\tx()\n\n}\n` (one block, braces at 20 and 29). -/
def batchParse (file : String) : Except String ParsedFile :=
  if file = "bad.go" then .error "bad.go:1:1: expected package, found EOF"
  else if file = "one.go" then .ok ⟨⟨22, [0, 10], []⟩, [], [⟨19, 20⟩]⟩
  else .ok ⟨⟨31, [0, 10, 11, 22, 23, 28, 29], []⟩, [], [⟨20, 29⟩]⟩

/-- A stand-in for the printing in the C3 example: the text is represented by the
line table it is printed from. -/
def batchPrint (_ : String) (_ : ParsedFile) (f : File) : Except String (List Nat) :=
  .ok f.lines

/-- The table without its alternative positions. -/
def File.dropInfos (f : File) : File := { f with infos := [] }

/-- The table `f` with the alternative positions `infos`. -/
def File.withInfos (infos : List lineInfo) (f : File) : File := { f with infos := infos }

/-- No alternative position is recorded at or before offset `p`: no `//line`
directive takes effect up to `p`, so `Line` is unadjusted there. -/
def File.rawUpTo (f : File) (p : Nat) : Prop := ∀ i ∈ f.infos, p < i.Offset

instance (f : File) (p : Nat) : Decidable (f.rawUpTo p) := by
  unfold File.rawUpTo; infer_instance

/-- A well-formed line table of a file without `//line` directives. -/
def File.Plain (f : File) : Prop := f.WF ∧ f.infos = []

instance (f : File) : Decidable f.Plain := by
  unfold File.Plain; infer_instance

/-! ## Facts about the line table -/

theorem countP_le_eq_zero_of_lt_head {a x : Nat} {t : List Nat}
    (h : (a :: t).Pairwise (· < ·)) (hx : x < a) :
    t.countP (fun s => decide (s ≤ x)) = 0 := by
  rw [List.countP_eq_zero]
  intro s hs
  have := (List.pairwise_cons.1 h).1 s hs
  simp only [decide_eq_true_eq]
  omega

/-- Deleting the entry at index `k` of a strictly increasing list lowers by one the
count of entries `≤ x` exactly when that count exceeds `k`. -/
theorem countP_le_eraseIdx (l : List Nat) (h : l.Pairwise (· < ·)) (k x : Nat) :
    (l.eraseIdx k).countP (fun s => decide (s ≤ x)) =
      if k < l.countP (fun s => decide (s ≤ x)) then l.countP (fun s => decide (s ≤ x)) - 1
      else l.countP (fun s => decide (s ≤ x)) := by
  induction l generalizing k with
  | nil => simp
  | cons a t ih =>
    have ht := (List.pairwise_cons.1 h).2
    by_cases hax : a ≤ x
    · cases k with
      | zero => simp [List.countP_cons, hax]
      | succ k =>
        simp only [List.eraseIdx_cons_succ, List.countP_cons, hax, decide_True, if_true, ih ht k]
        split_ifs <;> omega
    · have hz := countP_le_eq_zero_of_lt_head h (Nat.lt_of_not_le hax)
      cases k with
      | zero => simp [List.countP_cons, hax, hz]
      | succ k =>
        have hz2 : (t.eraseIdx k).countP (fun s => decide (s ≤ x)) = 0 := by
          rw [ih ht k, hz]; simp
        simp [List.countP_cons, hax, hz, hz2]

/-- Two strictly increasing lists that give every offset the same line number are
the same list. -/
theorem sorted_eq_of_countP_le (l1 l2 : List Nat) (h1 : l1.Pairwise (· < ·))
    (h2 : l2.Pairwise (· < ·))
    (h : ∀ x, l1.countP (fun s => decide (s ≤ x)) = l2.countP (fun s => decide (s ≤ x))) :
    l1 = l2 := by
  induction l1 generalizing l2 with
  | nil =>
    cases l2 with
    | nil => rfl
    | cons b t2 => have := h b; simp [List.countP_cons] at this
  | cons a t1 ih =>
    cases l2 with
    | nil => have := h a; simp [List.countP_cons] at this
    | cons b t2 =>
      have hab : a = b := by
        rcases Nat.lt_trichotomy a b with hlt | heq | hgt
        · have := h a
          rw [List.countP_cons, List.countP_cons, countP_le_eq_zero_of_lt_head h2 hlt] at this
          simp [Nat.not_le.2 hlt] at this
        · exact heq
        · have := h b
          rw [List.countP_cons, List.countP_cons, countP_le_eq_zero_of_lt_head h1 hgt] at this
          simp [Nat.not_le.2 hgt] at this
      subst hab
      congr 1
      apply ih _ (List.pairwise_cons.1 h1).2 (List.pairwise_cons.1 h2).2
      intro x
      have := h x
      simp only [List.countP_cons] at this
      omega

/-- In a strictly increasing table, the entry at index `i` is `≤ x` exactly when
more than `i` entries are `≤ x`. -/
theorem getElem_le_iff_lt_countP (l : List Nat) (h : l.Pairwise (· < ·)) (i : Nat)
    (hi : i < l.length) (x : Nat) :
    l[i] ≤ x ↔ i < l.countP (fun s => decide (s ≤ x)) := by
  induction l generalizing i with
  | nil => simp at hi
  | cons a t ih =>
    have ht := (List.pairwise_cons.1 h).2
    by_cases hax : a ≤ x
    · cases i with
      | zero => simp [List.countP_cons, hax]
      | succ i =>
        simp only [List.getElem_cons_succ, List.countP_cons, hax, decide_True, if_true]
        rw [ih ht i (by simpa using hi)]
        omega
    · have hz := countP_le_eq_zero_of_lt_head h (Nat.lt_of_not_le hax)
      cases i with
      | zero => simp [List.countP_cons, hax, hz]
      | succ i =>
        simp only [List.getElem_cons_succ, List.countP_cons, hax, decide_False, hz]
        have := ih ht i (by simpa using hi)
        rw [hz] at this
        simp at this ⊢
        omega

/-- The line starts in `(p, e]` account for the difference of the two line numbers. -/
theorem countP_range (l : List Nat) {p e : Nat} (hpe : p ≤ e) :
    l.countP (fun s => decide (s ≤ e)) =
      l.countP (fun s => decide (s ≤ p)) + l.countP (fun s => decide (p < s ∧ s ≤ e)) := by
  induction l with
  | nil => simp
  | cons a t ih =>
    rw [List.countP_cons, List.countP_cons, List.countP_cons, ih]
    split_ifs with h1 h2 h3 <;> simp only [decide_eq_true_eq] at * <;> omega

theorem eraseIdx_eq_filter_ne (l : List Nat) (h : l.Pairwise (· < ·)) (i : Nat)
    (hi : i < l.length) : l.eraseIdx i = l.filter (fun s => decide (s ≠ l[i])) := by
  have hn : l.Nodup := h.imp (fun hab => Nat.ne_of_lt hab)
  rw [← hn.erase_getElem i hi, hn.erase_eq_filter]
  apply List.filter_congr
  intro s _
  by_cases hs : s = l[i] <;> simp [hs]

/-- Without `//line` directives `Line` is the number of line starts `≤ p`. -/
theorem Line_eq_rawLine {f : File} (h : f.infos = []) (p : Nat) : Line f p = rawLine f p := by
  simp [Line, searchLineInfos, h]

theorem Line_mono {f : File} (h : f.Plain) {x y : Nat} (hxy : x ≤ y) :
    Line f x ≤ Line f y := by
  rw [Line_eq_rawLine h.2, Line_eq_rawLine h.2]
  unfold rawLine
  apply List.countP_mono_left
  intro s _ hs
  simp only [decide_eq_true_eq] at hs ⊢
  omega

theorem Line_le_length {f : File} (h : f.Plain) (x : Nat) : Line f x ≤ f.lines.length := by
  rw [Line_eq_rawLine h.2]
  exact List.countP_le_length _

theorem Line_pos {f : File} (h : f.Plain) (x : Nat) : 1 ≤ Line f x := by
  rw [Line_eq_rawLine h.2]
  obtain ⟨⟨h0, -, -⟩, -⟩ := h
  unfold rawLine
  cases hl : f.lines with
  | nil => simp [hl] at h0
  | cons a t =>
    simp only [hl, List.head?_cons, Option.some.injEq] at h0
    subst h0
    simp [List.countP_cons]

theorem MergeLine_eq_some_iff (f f1 : File) (k : Nat) :
    MergeLine f k = some f1 ↔
      1 ≤ k ∧ k < f.lines.length ∧ f1 = ⟨f.size, f.lines.eraseIdx k, f.infos⟩ := by
  unfold MergeLine
  split_ifs with h1 h2
  · simp; omega
  · simp; omega
  · simp only [Option.some.injEq]
    constructor
    · intro h; exact ⟨by omega, by omega, h.symm⟩
    · intro h; exact h.2.2.symm

theorem MergeLine_eq_none_iff (f : File) (k : Nat) :
    MergeLine f k = none ↔ k < 1 ∨ f.lines.length ≤ k := by
  unfold MergeLine
  split_ifs with h1 h2
  · simp; omega
  · simp; omega
  · simp; omega

theorem MergeLine_of_valid (f : File) (k : Nat) (h1 : 1 ≤ k) (h2 : k < f.lines.length) :
    MergeLine f k = some ⟨f.size, f.lines.eraseIdx k, f.infos⟩ :=
  (MergeLine_eq_some_iff f _ k).2 ⟨h1, h2, rfl⟩

theorem MergeLine_Plain {f f1 : File} {k : Nat} (h : f.Plain)
    (hm : MergeLine f k = some f1) : f1.Plain := by
  obtain ⟨hk1, hk2, rfl⟩ := (MergeLine_eq_some_iff f f1 k).1 hm
  obtain ⟨⟨h0, hp, hs, hi1, hi2⟩, hd⟩ := h
  refine ⟨⟨?_, ?_, ?_, hi1, hi2⟩, hd⟩
  · cases hl : f.lines with
    | nil => simp [hl] at h0
    | cons a t =>
      obtain ⟨j, rfl⟩ : ∃ j, k = j + 1 := ⟨k - 1, by omega⟩
      simpa [hl] using h0
  · exact List.Pairwise.sublist (List.eraseIdx_sublist _ _) hp
  · cases hl : f.lines with
    | nil => simp [hl] at h0
    | cons a t =>
      rw [hl] at hs
      obtain ⟨j, rfl⟩ : ∃ j, k = j + 1 := ⟨k - 1, by omega⟩
      intro s hs1
      simp only [List.eraseIdx_cons_succ, List.tail_cons] at hs1
      exact hs s (by simpa using (List.eraseIdx_sublist t j).subset hs1)

theorem MergeLine_size {f f1 : File} {k : Nat} (hm : MergeLine f k = some f1) :
    f1.size = f.size := by
  obtain ⟨-, -, rfl⟩ := (MergeLine_eq_some_iff f f1 k).1 hm
  rfl

theorem MergeLine_length {f f1 : File} {k : Nat} (hm : MergeLine f k = some f1) :
    f1.lines.length + 1 = f.lines.length := by
  obtain ⟨hk1, hk2, rfl⟩ := (MergeLine_eq_some_iff f f1 k).1 hm
  simp only [List.length_eraseIdx, hk2, if_true]
  omega

/-- Merging line `k` with the next one lowers by one the number of every line
after `k` and leaves the lines up to `k` alone (no `//line` directive). -/
theorem Line_MergeLine {f f1 : File} {k : Nat} (h : f.Plain) (hm : MergeLine f k = some f1)
    (x : Nat) : Line f1 x = if k < Line f x then Line f x - 1 else Line f x := by
  rw [Line_eq_rawLine (MergeLine_Plain h hm).2, Line_eq_rawLine h.2]
  obtain ⟨-, -, rfl⟩ := (MergeLine_eq_some_iff f f1 k).1 hm
  exact countP_le_eraseIdx f.lines h.1.2.1 k x

/-- Extensionality of line tables in terms of `Line`. -/
theorem File.eq_of_Line {f g : File} (hf : f.Plain) (hg : g.Plain) (hs : f.size = g.size)
    (h : ∀ x, Line f x = Line g x) : f = g := by
  have h2 : ∀ x, rawLine f x = rawLine g x := by
    intro x
    rw [← Line_eq_rawLine hf.2, ← Line_eq_rawLine hg.2]
    exact h x
  have hi : f.infos = g.infos := by rw [hf.2, hg.2]
  cases f with
  | mk fs fl fi =>
    cases g with
    | mk gs gl gi =>
      simp only at hs hi
      subst hs hi
      congr 1
      exact sorted_eq_of_countP_le fl gl hf.1.2.1 hg.1.2.1 h2

theorem lines_getElem_le_iff {f : File} (h : f.Plain) (i : Nat) (hi : i < f.lines.length)
    (x : Nat) : f.lines[i] ≤ x ↔ i < Line f x := by
  rw [Line_eq_rawLine h.2]
  exact getElem_le_iff_lt_countP f.lines h.1.2.1 i hi x

theorem Line_range {f : File} (h : f.Plain) {p e : Nat} (hpe : p ≤ e) :
    Line f e = Line f p + f.lines.countP (fun s => decide (p < s ∧ s ≤ e)) := by
  rw [Line_eq_rawLine h.2, Line_eq_rawLine h.2]
  exact countP_range f.lines hpe

/-- A line start in `(p, e]` puts `e` on a later line than `p`. -/
theorem Line_lt_of_mem {f : File} (h : f.Plain) {p e s : Nat} (hs : s ∈ f.lines)
    (hp : p < s) (he : s ≤ e) : Line f p < Line f e := by
  have hr := Line_range h (show p ≤ e by omega)
  have : 0 < f.lines.countP (fun s => decide (p < s ∧ s ≤ e)) :=
    List.countP_pos_iff.2 ⟨s, hs, by simp [hp, he]⟩
  omega

/-- When `e` is on a later line than `p`, some line start lies in `(p, e]`. -/
theorem exists_mem_of_Line_lt {f : File} (h : f.Plain) {p e : Nat}
    (hlt : Line f p < Line f e) : ∃ s ∈ f.lines, p < s ∧ s ≤ e := by
  have hpe : p ≤ e := by
    by_contra hc
    have := Line_mono h (show e ≤ p by omega)
    omega
  have hr := Line_range h hpe
  have : 0 < f.lines.countP (fun s => decide (p < s ∧ s ≤ e)) := by omega
  obtain ⟨s, hs, hps⟩ := List.countP_pos_iff.1 this
  exact ⟨s, hs, by simpa using hps⟩

theorem rmEmptyRowInsideBrace_eq_some_iff (f f2 : File) (bl : BlockStmt) :
    rmEmptyRowInsideBrace f bl = some f2 ↔
      ∃ f1, MergeLine f (Line f bl.Pos) = some f1 ∧
        MergeLine f1 (Line f1 bl.End - 1) = some f2 := by
  unfold rmEmptyRowInsideBrace
  cases MergeLine f (Line f bl.Pos) with
  | none => simp
  | some f1 => simp

/-- What a valid `MergeLine (Line f p)` deletes: the first line start after `p`. -/
theorem MergeLine_Line_lines {f f1 : File} {p : Nat} (h : f.Plain)
    (hm : MergeLine f (Line f p) = some f1) :
    ∃ m, m ∈ f.lines ∧ p < m ∧ (∀ s ∈ f.lines, p < s → m ≤ s) ∧
      f1.lines = f.lines.filter (fun s => decide (s ≠ m)) := by
  obtain ⟨-, hi, rfl⟩ := (MergeLine_eq_some_iff f f1 _).1 hm
  refine ⟨f.lines[Line f p], List.getElem_mem _, ?_, ?_, ?_⟩
  · have := lines_getElem_le_iff h _ hi p
    omega
  · intro s hs hps
    rw [lines_getElem_le_iff h _ hi s]
    exact Line_lt_of_mem h hs hps le_rfl
  · exact eraseIdx_eq_filter_ne f.lines h.1.2.1 _ hi

/-- What a valid `MergeLine (Line f e - 1)` deletes: the last line start up to `e`. -/
theorem MergeLine_Line_pred_lines {f f1 : File} {e : Nat} (h : f.Plain)
    (hm : MergeLine f (Line f e - 1) = some f1) :
    ∃ M, M ∈ f.lines ∧ M ≤ e ∧ (∀ s ∈ f.lines, s ≤ e → s ≤ M) ∧
      f1.lines = f.lines.filter (fun s => decide (s ≠ M)) := by
  obtain ⟨hk, hi, rfl⟩ := (MergeLine_eq_some_iff f f1 _).1 hm
  have hM := lines_getElem_le_iff h _ hi
  refine ⟨f.lines[Line f e - 1], List.getElem_mem _, ?_, ?_, ?_⟩
  · rw [hM e]; omega
  · intro s hs hse
    by_contra hc
    have h1 := Line_lt_of_mem h hs (Nat.lt_of_not_le hc) hse
    have h2 := (hM (f.lines[Line f e - 1])).1 le_rfl
    omega
  · exact eraseIdx_eq_filter_ne f.lines h.1.2.1 _ hi

/-! ## Tables with `//line` directives below the offsets used -/

theorem Line_of_rawUpTo {f : File} {p : Nat} (h : f.rawUpTo p) : Line f p = rawLine f p := by
  have : f.infos.filter (fun a => decide (a.Offset ≤ p)) = [] := by
    rw [List.filter_eq_nil_iff]
    intro a ha
    have := h a ha
    simp only [decide_eq_true_eq]
    omega
  simp [Line, searchLineInfos, this]

theorem Line_dropInfos (f : File) (p : Nat) : Line f.dropInfos p = rawLine f p :=
  Line_eq_rawLine rfl p

theorem dropInfos_Plain {f : File} (h : f.WF) : f.dropInfos.Plain := by
  obtain ⟨h0, hp, hs, -, -⟩ := h
  exact ⟨⟨h0, hp, hs, List.Pairwise.nil, by intro a ha; simp [File.dropInfos] at ha⟩, rfl⟩

theorem MergeLine_withInfos (f : File) (k : Nat) :
    MergeLine f k = (MergeLine f.dropInfos k).map (File.withInfos f.infos) := by
  have hl : f.dropInfos.lines = f.lines := rfl
  unfold MergeLine
  rw [hl]
  split_ifs
  · rfl
  · rfl
  · rfl

theorem withInfos_dropInfos {f g : File} {k : Nat} (h : MergeLine f.dropInfos k = some g) :
    (File.withInfos f.infos g).dropInfos = g ∧ (File.withInfos f.infos g).infos = f.infos := by
  obtain ⟨-, -, rfl⟩ := (MergeLine_eq_some_iff _ _ _).1 h
  exact ⟨rfl, rfl⟩

/-- With no alternative position at or before the two ends of a block,
`rmEmptyRowInsideBrace` acts as on the table without the `//line` directives. -/
theorem rmEmptyRowInsideBrace_withInfos (f : File) (bl : BlockStmt)
    (h1 : f.rawUpTo bl.Pos) (h2 : f.rawUpTo bl.End) :
    rmEmptyRowInsideBrace f bl =
      (rmEmptyRowInsideBrace f.dropInfos bl).map (File.withInfos f.infos) := by
  unfold rmEmptyRowInsideBrace
  rw [Line_of_rawUpTo h1, Line_dropInfos, MergeLine_withInfos f]
  cases hm : MergeLine f.dropInfos (rawLine f bl.Pos) with
  | none => rfl
  | some g =>
    obtain ⟨e1, e2⟩ := withInfos_dropInfos hm
    have hg : g.infos = [] := by
      obtain ⟨-, -, rfl⟩ := (MergeLine_eq_some_iff _ _ _).1 hm
      rfl
    have h2g : (File.withInfos f.infos g).rawUpTo bl.End := by
      intro i hi
      rw [e2] at hi
      exact h2 i hi
    simp only [Option.map_some']
    rw [Line_of_rawUpTo h2g, Line_eq_rawLine hg, MergeLine_withInfos, e1, e2]
    rfl

theorem rmEmptyRowInsideBrace_withInfos_props {f g : File} {bl : BlockStmt}
    (h : rmEmptyRowInsideBrace f.dropInfos bl = some g) :
    (File.withInfos f.infos g).dropInfos = g ∧ (File.withInfos f.infos g).infos = f.infos := by
  obtain ⟨g1, e1, e2⟩ := (rmEmptyRowInsideBrace_eq_some_iff _ _ _).1 h
  obtain ⟨-, -, rfl⟩ := (MergeLine_eq_some_iff _ _ _).1 e1
  obtain ⟨-, -, rfl⟩ := (MergeLine_eq_some_iff _ _ _).1 e2
  exact ⟨rfl, rfl⟩

theorem inspectBlocks_withInfos : ∀ (bls : List BlockStmt) (f : File),
    (∀ bl ∈ bls, f.rawUpTo bl.Pos ∧ f.rawUpTo bl.End) →
    inspectBlocks f bls = (inspectBlocks f.dropInfos bls).map (File.withInfos f.infos) := by
  intro bls
  induction bls with
  | nil =>
    intro f _
    simp only [inspectBlocks, Option.map_some']
    rfl
  | cons bl bls ih =>
    intro f h
    have hb := h bl (by simp)
    simp only [inspectBlocks]
    rw [rmEmptyRowInsideBrace_withInfos f bl hb.1 hb.2]
    cases hm : rmEmptyRowInsideBrace f.dropInfos bl with
    | none => rfl
    | some g =>
      obtain ⟨e1, e2⟩ := rmEmptyRowInsideBrace_withInfos_props hm
      simp only [Option.map_some']
      rw [ih (File.withInfos f.infos g) (by
        intro b hbm
        have := h b (List.mem_cons_of_mem _ hbm)
        exact ⟨fun i hi => this.1 i (e2 ▸ hi), fun i hi => this.2 i (e2 ▸ hi)⟩), e1, e2]

theorem importLoop_withInfos : ∀ (specs : List ImportSpec) (f : File),
    (∀ v ∈ specs, f.rawUpTo v.End) →
    importLoop f specs = (importLoop f.dropInfos specs).map (File.withInfos f.infos) := by
  intro specs
  induction specs with
  | nil =>
    intro f _
    simp only [importLoop, Option.map_some']
    rfl
  | cons v vs ih =>
    intro f h
    simp only [importLoop]
    rw [Line_of_rawUpTo (h v (by simp)), Line_dropInfos, MergeLine_withInfos f]
    cases hm : MergeLine f.dropInfos (rawLine f v.End) with
    | none => rfl
    | some g =>
      obtain ⟨e1, e2⟩ := withInfos_dropInfos hm
      simp only [Option.map_some']
      rw [ih (File.withInfos f.infos g) (by
        intro w hw
        intro i hi
        exact h w (List.mem_cons_of_mem _ hw) i (e2 ▸ hi)), e1, e2]

theorem Line_of_search_none {f : File} {x : Nat} (h : searchLineInfos f.infos x = none) :
    Line f x = rawLine f x := by
  simp [Line, h]

theorem Line_of_search_some {f : File} {x : Nat} {alt : lineInfo}
    (h : searchLineInfos f.infos x = some alt) (h1 : 1 ≤ rawLine f alt.Offset) :
    Line f x = alt.Line + (rawLine f x - rawLine f alt.Offset) := by
  simp [Line, h, h1]

theorem searchLineInfos_some {infos : List lineInfo} {x : Nat} {alt : lineInfo}
    (h : searchLineInfos infos x = some alt) : alt ∈ infos ∧ alt.Offset ≤ x := by
  have := List.mem_of_getLast?_eq_some h
  rw [List.mem_filter] at this
  exact ⟨this.1, by simpa using this.2⟩

/-! ## Blocks spanning three or more lines -/

/-- C10, counterexample. In `package p\n\n//line x.go:100\nfunc f() {\n\n\tx()\n\n}\n` the
block (braces at 36 and 45) has four line starts in `(Pos, End]`, and the first merge
is given line 100 and panics.  In the same file with `//line x.go:1` (braces at 34
and 43, line starts 36, 37, 42, 43 in `(Pos, End]`) the call deletes the line starts
10 and 37 instead of 36 and 43.  In
`package p\n\nfunc f() {\n\n\tx()\n\n}\n//line x.go:1\nvar x int\n` (braces at 20 and 29,
alternative position at offset 45) the call deletes 22 and 29, and the block end
(offset 30) and `var` (offset 45), both after the block, are six lines apart before
the call and four after it. -/
theorem rmEmptyRowInsideBrace_line_directive :
    AddLineInfo (File.ofSource
        "package p\n\n//line x.go:100\nfunc f() \x7b\n\n\tx()\n\n\x7d\n".toList) 27 100
      = ⟨47, [0, 10, 11, 27, 38, 39, 44, 45], [⟨27, 100⟩]⟩ ∧
    (⟨47, [0, 10, 11, 27, 38, 39, 44, 45], [⟨27, 100⟩]⟩ : File).WF ∧
    Line ⟨47, [0, 10, 11, 27, 38, 39, 44, 45], [⟨27, 100⟩]⟩ 36 = 100 ∧
    rmEmptyRowInsideBrace ⟨47, [0, 10, 11, 27, 38, 39, 44, 45], [⟨27, 100⟩]⟩ ⟨36, 45⟩
      = none ∧
    AddLineInfo (File.ofSource
        "package p\n\n//line x.go:1\nfunc f() \x7b\n\n\tx()\n\n\x7d\n".toList) 25 1
      = ⟨45, [0, 10, 11, 25, 36, 37, 42, 43], [⟨25, 1⟩]⟩ ∧
    (⟨45, [0, 10, 11, 25, 36, 37, 42, 43], [⟨25, 1⟩]⟩ : File).WF ∧
    rmEmptyRowInsideBrace ⟨45, [0, 10, 11, 25, 36, 37, 42, 43], [⟨25, 1⟩]⟩ ⟨34, 43⟩
      = some ⟨45, [0, 11, 25, 36, 42, 43], [⟨25, 1⟩]⟩ ∧
    AddLineInfo (File.ofSource
        "package p\n\nfunc f() \x7b\n\n\tx()\n\n\x7d\n//line x.go:1\nvar x int\n".toList) 45 1
      = ⟨55, [0, 10, 11, 22, 23, 28, 29, 31, 45], [⟨45, 1⟩]⟩ ∧
    (⟨55, [0, 10, 11, 22, 23, 28, 29, 31, 45], [⟨45, 1⟩]⟩ : File).WF ∧
    rmEmptyRowInsideBrace ⟨55, [0, 10, 11, 22, 23, 28, 29, 31, 45], [⟨45, 1⟩]⟩ ⟨20, 29⟩
      = some ⟨55, [0, 10, 11, 23, 28, 31, 45], [⟨45, 1⟩]⟩ ∧
    (Line ⟨55, [0, 10, 11, 22, 23, 28, 29, 31, 45], [⟨45, 1⟩]⟩ 30 : Int)
      - Line ⟨55, [0, 10, 11, 22, 23, 28, 29, 31, 45], [⟨45, 1⟩]⟩ 45 = 6 ∧
    (Line ⟨55, [0, 10, 11, 23, 28, 31, 45], [⟨45, 1⟩]⟩ 30 : Int)
      - Line ⟨55, [0, 10, 11, 23, 28, 31, 45], [⟨45, 1⟩]⟩ 45 = 4 := by
  decide

/-- The block of three or more lines in a table without `//line` directives. -/
theorem rmEmptyRowInsideBrace_three_lines_plain (f : File) (bl : BlockStmt) (hP : f.Plain)
    (h2 : 2 ≤ f.lines.countP (fun s => decide (bl.Pos < s ∧ s ≤ bl.End))) :
    ∃ m M f2, rmEmptyRowInsideBrace f bl = some f2 ∧ f2.Plain ∧
      m ∈ f.lines ∧ M ∈ f.lines ∧ bl.Pos < m ∧ m < M ∧ M ≤ bl.End ∧
      (∀ s ∈ f.lines, bl.Pos < s → s ≤ bl.End → m ≤ s ∧ s ≤ M) ∧
      f2.size = f.size ∧
      f2.lines = f.lines.filter (fun s => decide (s ≠ m ∧ s ≠ M)) ∧
      f2.lines.length + 2 = f.lines.length ∧
      ∀ a b, (a ≤ bl.Pos ∧ b ≤ bl.Pos) ∨ (bl.End ≤ a ∧ bl.End ≤ b) →
        (Line f2 b : Int) - Line f2 a = (Line f b : Int) - Line f a := by
  have hpe : bl.Pos ≤ bl.End := by
    by_contra hc
    have : f.lines.countP (fun s => decide (bl.Pos < s ∧ s ≤ bl.End)) = 0 := by
      rw [List.countP_eq_zero]
      intro s _
      simp only [decide_eq_true_eq]
      omega
    omega
  have hr := Line_range hP hpe
  have ha1 := Line_pos hP bl.Pos
  have hle := Line_le_length hP bl.End
  have hm1 := MergeLine_of_valid f (Line f bl.Pos) ha1 (by omega)
  generalize hf1 : (⟨f.size, f.lines.eraseIdx (Line f bl.Pos), f.infos⟩ : File) = f1 at hm1
  have hwf1 := MergeLine_Plain hP hm1
  have hL1 := Line_MergeLine hP hm1
  have hlen1 := MergeLine_length hm1
  have he1 : Line f1 bl.End + 1 = Line f bl.End := by
    rw [hL1]; split_ifs <;> omega
  have hp1 : Line f1 bl.Pos = Line f bl.Pos := by
    rw [hL1]; split_ifs <;> omega
  have hm2 := MergeLine_of_valid f1 (Line f1 bl.End - 1) (by omega) (by omega)
  generalize hf2 :
    (⟨f1.size, f1.lines.eraseIdx (Line f1 bl.End - 1), f1.infos⟩ : File) = f2 at hm2
  have hL2 := Line_MergeLine hwf1 hm2
  have hlen2 := MergeLine_length hm2
  obtain ⟨m, hm_mem, hm_gt, hm_min, hm_eq⟩ := MergeLine_Line_lines hP hm1
  obtain ⟨M, hM_mem, hM_le, hM_max, hM_eq⟩ := MergeLine_Line_pred_lines hwf1 hm2
  have hM_mem1 := hM_mem
  rw [hm_eq, List.mem_filter] at hM_mem
  have hMm : M ≠ m := by simpa using hM_mem.2
  obtain ⟨s0, hs0, hs0p, hs0e⟩ := exists_mem_of_Line_lt hwf1 (p := bl.Pos)
    (e := bl.End) (by omega)
  have hpM : bl.Pos < M := lt_of_lt_of_le hs0p (hM_max s0 hs0 hs0e)
  have hmM : m ≤ M := hm_min M hM_mem.1 hpM
  refine ⟨m, M, f2, (rmEmptyRowInsideBrace_eq_some_iff f f2 bl).2 ⟨f1, hm1, hm2⟩,
    MergeLine_Plain hwf1 hm2, hm_mem, hM_mem.1, hm_gt, by omega, hM_le, ?_, ?_, ?_, by omega, ?_⟩
  · intro s hs hps hse
    refine ⟨hm_min s hs hps, ?_⟩
    by_cases hsm : s = m
    · omega
    · exact hM_max s (by rw [hm_eq, List.mem_filter]; exact ⟨hs, by simpa using hsm⟩) hse
  · rw [MergeLine_size hm2, MergeLine_size hm1]
  · rw [hM_eq, hm_eq, List.filter_filter]
    apply List.filter_congr
    intro s _
    by_cases h1 : s = m <;> by_cases h2 : s = M <;> simp [h1, h2]
  · intro a b hab
    have key : ∀ x, (x ≤ bl.Pos → Line f2 x = Line f x) ∧
        (bl.End ≤ x → Line f2 x + 2 = Line f x) := by
      intro x
      have h1x := hL1 x
      have h2x := hL2 x
      constructor
      · intro hx
        have := Line_mono hP hx
        split_ifs at h1x h2x <;> omega
      · intro hx
        have := Line_mono hP hx
        split_ifs at h1x h2x <;> omega
    rcases hab with ⟨h1, h2⟩ | ⟨h1, h2⟩
    · rw [(key a).1 h1, (key b).1 h2]
    · have := (key a).2 h1
      have := (key b).2 h2
      omega

/-- C10, amended. When no `//line` directive takes effect at or before the end of
the block, for a block with at least two line starts in `(Pos, End]`,
`rmEmptyRowInsideBrace` succeeds (no panic of `MergeLine`), deletes exactly two line
starts, the smallest `m` and the largest `M` of those in `(Pos, End]`, keeps every
other line start, and changes no line distance between two offsets that are both
`≤ Pos`, or both `≥ End` and governed by the same `//line` directive or by none. -/
theorem rmEmptyRowInsideBrace_three_lines (f : File) (bl : BlockStmt) (h : f.WF)
    (hdir : f.rawUpTo bl.End)
    (h2 : 2 ≤ f.lines.countP (fun s => decide (bl.Pos < s ∧ s ≤ bl.End))) :
    ∃ m M f2, rmEmptyRowInsideBrace f bl = some f2 ∧
      m ∈ f.lines ∧ M ∈ f.lines ∧ bl.Pos < m ∧ m < M ∧ M ≤ bl.End ∧
      (∀ s ∈ f.lines, bl.Pos < s → s ≤ bl.End → m ≤ s ∧ s ≤ M) ∧
      f2.size = f.size ∧
      f2.lines = f.lines.filter (fun s => decide (s ≠ m ∧ s ≠ M)) ∧
      f2.lines.length + 2 = f.lines.length ∧
      ∀ a b, (a ≤ bl.Pos ∧ b ≤ bl.Pos) ∨
          (bl.End ≤ a ∧ bl.End ≤ b ∧ searchLineInfos f.infos a = searchLineInfos f.infos b) →
        (Line f2 b : Int) - Line f2 a = (Line f b : Int) - Line f a := by
  have hpe : bl.Pos ≤ bl.End := by
    by_contra hc
    have : f.lines.countP (fun s => decide (bl.Pos < s ∧ s ≤ bl.End)) = 0 := by
      rw [List.countP_eq_zero]
      intro s _
      simp only [decide_eq_true_eq]
      omega
    omega
  have hdp : f.rawUpTo bl.Pos := fun i hi => lt_of_le_of_lt hpe (hdir i hi)
  have hPd := dropInfos_Plain h
  obtain ⟨m, M, g2, hrm, hPg, h1, h3, h4, h5, h6, h7, h8, h9, h10, hdist⟩ :=
    rmEmptyRowInsideBrace_three_lines_plain f.dropInfos bl hPd h2
  obtain ⟨-, einf⟩ := rmEmptyRowInsideBrace_withInfos_props hrm
  have hraw2 : ∀ x, rawLine (File.withInfos f.infos g2) x = Line g2 x := fun x =>
    (Line_eq_rawLine hPg.2 x).symm
  have hraw : ∀ x, rawLine f x = Line f.dropInfos x := fun x => (Line_dropInfos f x).symm
  refine ⟨m, M, File.withInfos f.infos g2, ?_, h1, h3, h4, h5, h6, h7, h8, h9, h10, ?_⟩
  · rw [rmEmptyRowInsideBrace_withInfos f bl hdp hdir, hrm]
    rfl
  · intro a b hab
    rcases hab with ⟨ha, hb⟩ | ⟨ha, hb, hs⟩
    · have ra : f.rawUpTo a := fun i hi => lt_of_le_of_lt ha (hdp i hi)
      have rb : f.rawUpTo b := fun i hi => lt_of_le_of_lt hb (hdp i hi)
      have ra2 : (File.withInfos f.infos g2).rawUpTo a := fun i hi => ra i (einf ▸ hi)
      have rb2 : (File.withInfos f.infos g2).rawUpTo b := fun i hi => rb i (einf ▸ hi)
      rw [Line_of_rawUpTo ra, Line_of_rawUpTo rb, Line_of_rawUpTo ra2, Line_of_rawUpTo rb2,
        hraw, hraw, hraw2, hraw2]
      exact hdist a b (Or.inl ⟨ha, hb⟩)
    · have hs2 : searchLineInfos (File.withInfos f.infos g2).infos a
          = searchLineInfos f.infos a := by rw [einf]
      have hs3 : searchLineInfos (File.withInfos f.infos g2).infos b
          = searchLineInfos f.infos a := by rw [einf, hs]
      cases hsa : searchLineInfos f.infos a with
      | none =>
        have hsb : searchLineInfos f.infos b = none := by rw [← hs]; exact hsa
        have e1 : Line f a = Line f.dropInfos a := by rw [Line_of_search_none hsa, hraw]
        have e2 : Line f b = Line f.dropInfos b := by rw [Line_of_search_none hsb, hraw]
        have e3 : Line (File.withInfos f.infos g2) a = Line g2 a := by
          rw [Line_of_search_none (hs2.trans hsa), hraw2]
        have e4 : Line (File.withInfos f.infos g2) b = Line g2 b := by
          rw [Line_of_search_none (hs3.trans hsa), hraw2]
        rw [e1, e2, e3, e4]
        exact hdist a b (Or.inr ⟨ha, hb⟩)
      | some alt =>
        have hsb : searchLineInfos f.infos b = some alt := by rw [← hs]; exact hsa
        obtain ⟨hmem, hoa⟩ := searchLineInfos_some hsa
        obtain ⟨-, hob⟩ := searchLineInfos_some hsb
        have hoe : bl.End ≤ alt.Offset := Nat.le_of_lt (hdir alt hmem)
        have p1 : 1 ≤ rawLine f alt.Offset := by rw [hraw]; exact Line_pos hPd _
        have p2 : 1 ≤ rawLine (File.withInfos f.infos g2) alt.Offset := by
          rw [hraw2]; exact Line_pos hPg _
        have e1 : Line f a = alt.Line + (Line f.dropInfos a - Line f.dropInfos alt.Offset) := by
          rw [Line_of_search_some hsa p1, hraw, hraw]
        have e2 : Line f b = alt.Line + (Line f.dropInfos b - Line f.dropInfos alt.Offset) := by
          rw [Line_of_search_some hsb p1, hraw, hraw]
        have e3 : Line (File.withInfos f.infos g2) a
            = alt.Line + (Line g2 a - Line g2 alt.Offset) := by
          rw [Line_of_search_some (hs2.trans hsa) p2, hraw2, hraw2]
        have e4 : Line (File.withInfos f.infos g2) b
            = alt.Line + (Line g2 b - Line g2 alt.Offset) := by
          rw [Line_of_search_some (hs3.trans hsa) p2, hraw2, hraw2]
        rw [e1, e2, e3, e4]
        have d1 := hdist alt.Offset a (Or.inr ⟨hoe, ha⟩)
        have d2 := hdist alt.Offset b (Or.inr ⟨hoe, hb⟩)
        have m1 := Line_mono hPd hoa
        have m2 := Line_mono hPd hob
        have m3 := Line_mono hPg hoa
        have m4 := Line_mono hPg hob
        omega

/-- Witness of the amended C10 on
`package p\n\nfunc f() {\n\n\tx()\n\n}\n//line x.go:1\nvar x int\n` (braces at 20 and 29, the
alternative position of the directive at offset 45, after the block). -/
theorem rmEmptyRowInsideBrace_three_lines_witness :
    AddLineInfo (File.ofSource
        "package p\n\nfunc f() \x7b\n\n\tx()\n\n\x7d\n//line x.go:1\nvar x int\n".toList) 45 1
      = ⟨55, [0, 10, 11, 22, 23, 28, 29, 31, 45], [⟨45, 1⟩]⟩ ∧
    ∃ m M f2,
      rmEmptyRowInsideBrace ⟨55, [0, 10, 11, 22, 23, 28, 29, 31, 45], [⟨45, 1⟩]⟩ ⟨20, 29⟩
        = some f2 ∧
      m ∈ (⟨55, [0, 10, 11, 22, 23, 28, 29, 31, 45], [⟨45, 1⟩]⟩ : File).lines ∧
      M ∈ (⟨55, [0, 10, 11, 22, 23, 28, 29, 31, 45], [⟨45, 1⟩]⟩ : File).lines ∧
      (⟨20, 29⟩ : BlockStmt).Pos < m ∧ m < M ∧ M ≤ (⟨20, 29⟩ : BlockStmt).End ∧
      (∀ s ∈ (⟨55, [0, 10, 11, 22, 23, 28, 29, 31, 45], [⟨45, 1⟩]⟩ : File).lines,
        (⟨20, 29⟩ : BlockStmt).Pos < s → s ≤ (⟨20, 29⟩ : BlockStmt).End → m ≤ s ∧ s ≤ M) ∧
      f2.size = (⟨55, [0, 10, 11, 22, 23, 28, 29, 31, 45], [⟨45, 1⟩]⟩ : File).size ∧
      f2.lines = (⟨55, [0, 10, 11, 22, 23, 28, 29, 31, 45], [⟨45, 1⟩]⟩ : File).lines.filter
        (fun s => decide (s ≠ m ∧ s ≠ M)) ∧
      f2.lines.length + 2
        = (⟨55, [0, 10, 11, 22, 23, 28, 29, 31, 45], [⟨45, 1⟩]⟩ : File).lines.length ∧
      ∀ a b, (a ≤ (⟨20, 29⟩ : BlockStmt).Pos ∧ b ≤ (⟨20, 29⟩ : BlockStmt).Pos) ∨
          ((⟨20, 29⟩ : BlockStmt).End ≤ a ∧ (⟨20, 29⟩ : BlockStmt).End ≤ b ∧
            searchLineInfos (⟨55, [0, 10, 11, 22, 23, 28, 29, 31, 45], [⟨45, 1⟩]⟩ : File).infos a
              = searchLineInfos
                (⟨55, [0, 10, 11, 22, 23, 28, 29, 31, 45], [⟨45, 1⟩]⟩ : File).infos b) →
        (Line f2 b : Int) - Line f2 a =
          (Line ⟨55, [0, 10, 11, 22, 23, 28, 29, 31, 45], [⟨45, 1⟩]⟩ b : Int) -
            Line ⟨55, [0, 10, 11, 22, 23, 28, 29, 31, 45], [⟨45, 1⟩]⟩ a :=
  ⟨by decide, rmEmptyRowInsideBrace_three_lines _ ⟨20, 29⟩ (by decide) (by decide)
    (by decide)⟩

/-! ## Blank lines right inside the braces -/

/-- C1, the code at failing inputs.  In `package p\n\nfunc f() {\n\n\n\tx := 1\n\t_ = x\n}\n`
two blank lines follow the opening brace (offset 20; `x` at offset 25, closing brace
at 39): the call succeeds, deletes the line starts 22 and 39, and leaves `x` two
logical lines below the brace, so one blank logical line remains.  In
`package p\n\nfunc f() {\n\tx()\n\n\n}\n` two blank lines precede the closing brace
(offset 29; last interior byte at 25): the call leaves the closing brace two logical
lines below the last interior token.  On the text of the example of the specification,
`func f() {\n\n\n  x := 1\n}` (brace at 9, `x` at 15), `x` stays two lines below the
brace as well. -/
theorem rmEmptyRowInsideBrace_two_blank_lines :
    File.ofSource "package p\n\nfunc f() \x7b\n\n\n\tx := 1\n\t_ = x\n\x7d\n".toList
      = ⟨41, [0, 10, 11, 22, 23, 24, 32, 39], []⟩ ∧
    (⟨41, [0, 10, 11, 22, 23, 24, 32, 39], []⟩ : File).WF ∧
    rmEmptyRowInsideBrace ⟨41, [0, 10, 11, 22, 23, 24, 32, 39], []⟩ ⟨20, 39⟩
      = some ⟨41, [0, 10, 11, 23, 24, 32], []⟩ ∧
    Line ⟨41, [0, 10, 11, 23, 24, 32], []⟩ 20 = 3 ∧
    Line ⟨41, [0, 10, 11, 23, 24, 32], []⟩ 25 = 5 ∧
    File.ofSource "package p\n\nfunc f() \x7b\n\tx()\n\n\n\x7d\n".toList
      = ⟨31, [0, 10, 11, 22, 27, 28, 29], []⟩ ∧
    rmEmptyRowInsideBrace ⟨31, [0, 10, 11, 22, 27, 28, 29], []⟩ ⟨20, 29⟩
      = some ⟨31, [0, 10, 11, 27, 28], []⟩ ∧
    Line ⟨31, [0, 10, 11, 27, 28], []⟩ 25 = 3 ∧
    Line ⟨31, [0, 10, 11, 27, 28], []⟩ 29 = 5 ∧
    File.ofSource "func f() \x7b\n\n\n  x := 1\n\x7d".toList
      = ⟨23, [0, 11, 12, 13, 22], []⟩ ∧
    rmEmptyRowInsideBrace ⟨23, [0, 11, 12, 13, 22], []⟩ ⟨9, 22⟩
      = some ⟨23, [0, 12, 13], []⟩ ∧
    Line ⟨23, [0, 12, 13], []⟩ 9 = 1 ∧ Line ⟨23, [0, 12, 13], []⟩ 15 = 3 := by
  decide

/-! ## Blocks written on one or two lines -/

/-- C4, the code at two failing inputs.  In `package p\n\nfunc f() {}\n\nvar x int\n`
(braces at 20 and 21) the call succeeds and deletes the line starts 23 and 11, both
outside `(Pos, End]`: `package` (offset 0) and `func` (offset 11), both before the
block, were two lines apart and are one line apart afterwards, and so are the block
end (offset 22) and `var` (offset 24), both after the block.  In
`package p\n\nfunc f() {\n}\n` (braces at 20 and 22) the call deletes the line starts
22 and 11, and `package` and `func` end one line apart instead of two. -/
theorem rmEmptyRowInsideBrace_one_line_block :
    File.ofSource "package p\n\nfunc f() \x7b\x7d\n\nvar x int\n".toList
      = ⟨34, [0, 10, 11, 23, 24], []⟩ ∧
    (⟨34, [0, 10, 11, 23, 24], []⟩ : File).WF ∧
    rmEmptyRowInsideBrace ⟨34, [0, 10, 11, 23, 24], []⟩ ⟨20, 21⟩
      = some ⟨34, [0, 10, 24], []⟩ ∧
    (Line ⟨34, [0, 10, 11, 23, 24], []⟩ 11 : Int) - Line ⟨34, [0, 10, 11, 23, 24], []⟩ 0 = 2 ∧
    (Line ⟨34, [0, 10, 24], []⟩ 11 : Int) - Line ⟨34, [0, 10, 24], []⟩ 0 = 1 ∧
    (Line ⟨34, [0, 10, 11, 23, 24], []⟩ 24 : Int) - Line ⟨34, [0, 10, 11, 23, 24], []⟩ 22 = 2 ∧
    (Line ⟨34, [0, 10, 24], []⟩ 24 : Int) - Line ⟨34, [0, 10, 24], []⟩ 22 = 1 ∧
    File.ofSource "package p\n\nfunc f() \x7b\n\x7d\n".toList = ⟨24, [0, 10, 11, 22], []⟩ ∧
    rmEmptyRowInsideBrace ⟨24, [0, 10, 11, 22], []⟩ ⟨20, 22⟩ = some ⟨24, [0, 10], []⟩ ∧
    (Line ⟨24, [0, 10, 11, 22], []⟩ 11 : Int) - Line ⟨24, [0, 10, 11, 22], []⟩ 0 = 2 ∧
    (Line ⟨24, [0, 10], []⟩ 11 : Int) - Line ⟨24, [0, 10], []⟩ 0 = 1 := by
  decide

/-- C5, the code at failing inputs.  On `package p\nfunc f() {}\n` the first merge of
`rmEmptyRowInsideBrace` is given line 2 of a two-line table and panics; on
`package p; func f() {}\nvar x int\n` the second merge is given line 0 and panics; on
`package p\nimport "a"\n` the merge of the import loop is given line 2 of a two-line
table and panics.  All offsets are valid: `0 ≤ Pos < End ≤ size`. -/
theorem MergeLine_panics :
    File.ofSource "package p\nfunc f() \x7b\x7d\n".toList = ⟨22, [0, 10], []⟩ ∧
    (⟨22, [0, 10], []⟩ : File).WF ∧ (19 < 21 ∧ 21 ≤ 22) ∧
    Line ⟨22, [0, 10], []⟩ 19 = 2 ∧ MergeLine ⟨22, [0, 10], []⟩ 2 = none ∧
    rmEmptyRowInsideBrace ⟨22, [0, 10], []⟩ ⟨19, 20⟩ = none ∧
    File.ofSource "package p; func f() \x7b\x7d\nvar x int\n".toList = ⟨33, [0, 23], []⟩ ∧
    MergeLine ⟨33, [0, 23], []⟩ (Line ⟨33, [0, 23], []⟩ 20) = some ⟨33, [0], []⟩ ∧
    Line ⟨33, [0], []⟩ 22 - 1 = 0 ∧ MergeLine ⟨33, [0], []⟩ 0 = none ∧
    rmEmptyRowInsideBrace ⟨33, [0, 23], []⟩ ⟨20, 21⟩ = none ∧
    File.ofSource "package p\nimport \"a\"\n".toList = ⟨21, [0, 10], []⟩ ∧
    Line ⟨21, [0, 10], []⟩ 20 = 2 ∧
    importLoop ⟨21, [0, 10], []⟩ [⟨17, 20⟩] = none := by
  decide

/-! ## Order of the merges -/

/-- Two merges "line of `e1` with its successor" and "line of `e2` with its successor"
commute, failure included (no `//line` directive). -/
theorem MergeLine_Line_comm (f : File) (h : f.Plain) (e1 e2 : Nat) :
    (MergeLine f (Line f e1)).bind (fun g => MergeLine g (Line g e2)) =
      (MergeLine f (Line f e2)).bind (fun g => MergeLine g (Line g e1)) := by
  have ha1 := Line_pos h e1
  have hb1 := Line_pos h e2
  by_cases ha : Line f e1 < f.lines.length
  · have hm1 := MergeLine_of_valid f _ ha1 ha
    generalize (⟨f.size, f.lines.eraseIdx (Line f e1), f.infos⟩ : File) = f1 at hm1
    have hw1 := MergeLine_Plain h hm1
    have hL1 := Line_MergeLine h hm1
    have hn1 := MergeLine_length hm1
    have hp1 := Line_pos hw1 e2
    have hx1 := hL1 e2
    rw [hm1, Option.some_bind]
    by_cases hb : Line f e2 < f.lines.length
    · have hm2 := MergeLine_of_valid f _ hb1 hb
      generalize (⟨f.size, f.lines.eraseIdx (Line f e2), f.infos⟩ : File) = f2 at hm2
      have hw2 := MergeLine_Plain h hm2
      have hL2 := Line_MergeLine h hm2
      have hn2 := MergeLine_length hm2
      have hp2 := Line_pos hw2 e1
      have hx2 := hL2 e1
      rw [hm2, Option.some_bind]
      by_cases hv : Line f1 e2 < f1.lines.length
      · have hv2 : Line f2 e1 < f2.lines.length := by
          split_ifs at hx1 hx2 <;> omega
        have hm12 := MergeLine_of_valid f1 _ hp1 hv
        have hm21 := MergeLine_of_valid f2 _ hp2 hv2
        generalize (⟨f1.size, f1.lines.eraseIdx (Line f1 e2), f1.infos⟩ : File) = f12 at hm12
        generalize (⟨f2.size, f2.lines.eraseIdx (Line f2 e1), f2.infos⟩ : File) = f21 at hm21
        rw [hm12, hm21]
        congr 1
        apply File.eq_of_Line (MergeLine_Plain hw1 hm12) (MergeLine_Plain hw2 hm21)
        · rw [MergeLine_size hm12, MergeLine_size hm21, MergeLine_size hm1,
            MergeLine_size hm2]
        · intro x
          have c1 := hL1 x
          have c2 := hL2 x
          have c12 := Line_MergeLine hw1 hm12 x
          have c21 := Line_MergeLine hw2 hm21 x
          split_ifs at hx1 hx2 c1 c2 c12 c21 <;> omega
      · have hv2 : ¬ Line f2 e1 < f2.lines.length := by
          split_ifs at hx1 hx2 <;> omega
        rw [(MergeLine_eq_none_iff f1 _).2 (by omega), (MergeLine_eq_none_iff f2 _).2 (by omega)]
    · rw [(MergeLine_eq_none_iff f _).2 (Or.inr (by omega) : _ ∨ f.lines.length ≤ Line f e2),
        Option.none_bind]
      exact (MergeLine_eq_none_iff f1 _).2 (by split_ifs at hx1 <;> omega)
  · rw [(MergeLine_eq_none_iff f _).2 (Or.inr (by omega) : _ ∨ f.lines.length ≤ Line f e1),
      Option.none_bind]
    by_cases hb : Line f e2 < f.lines.length
    · have hm2 := MergeLine_of_valid f _ hb1 hb
      generalize (⟨f.size, f.lines.eraseIdx (Line f e2), f.infos⟩ : File) = f2 at hm2
      have hx2 := Line_MergeLine h hm2 e1
      have hn2 := MergeLine_length hm2
      rw [hm2, Option.some_bind]
      exact ((MergeLine_eq_none_iff f2 _).2 (by split_ifs at hx2 <;> omega)).symm
    · rw [(MergeLine_eq_none_iff f _).2 (Or.inr (by omega) : _ ∨ f.lines.length ≤ Line f e2),
        Option.none_bind]

theorem importLoop_cons (f : File) (v : ImportSpec) (vs : List ImportSpec) :
    importLoop f (v :: vs) =
      (MergeLine f (Line f v.End)).bind (fun g => importLoop g vs) := by
  simp only [importLoop]
  cases MergeLine f (Line f v.End) <;> rfl

/-- Without `//line` directives the table left by the import loop does not depend on
the order of the specs. -/
theorem importLoop_perm {l1 l2 : List ImportSpec} (hp : l1.Perm l2) :
    ∀ f : File, f.Plain → importLoop f l1 = importLoop f l2 := by
  induction hp with
  | nil => intro f _; rfl
  | cons v _ ih =>
    intro f h
    rw [importLoop_cons, importLoop_cons]
    cases hm : MergeLine f (Line f v.End) with
    | none => rfl
    | some g => exact ih g (MergeLine_Plain h hm)
  | swap v w l =>
    intro f h
    have hc := MergeLine_Line_comm f h v.End w.End
    have e1 : importLoop f (w :: v :: l) =
        ((MergeLine f (Line f w.End)).bind (fun g => MergeLine g (Line g v.End))).bind
          (fun g => importLoop g l) := by
      rw [importLoop_cons]
      cases MergeLine f (Line f w.End) with
      | none => rfl
      | some g => simp only [Option.some_bind, importLoop_cons]
    have e2 : importLoop f (v :: w :: l) =
        ((MergeLine f (Line f v.End)).bind (fun g => MergeLine g (Line g w.End))).bind
          (fun g => importLoop g l) := by
      rw [importLoop_cons]
      cases MergeLine f (Line f v.End) with
      | none => rfl
      | some g => simp only [Option.some_bind, importLoop_cons]
    rw [e1, e2, hc]
  | trans _ _ ih1 ih2 =>
    intro f h
    rw [ih1 f h, ih2 f h]

/-- C8, counterexample. In
`package p\n//line x.go:1\nimport (\n\t"a"\n\t"b"\n)\nvar x int\n` the directive records the
alternative position (offset 24, line 1); the specs end at 37 and 42.  The loop in
declaration order deletes the line starts 24 and 38, in reverse order 33 and 10:
the two orders succeed and leave different tables. -/
theorem importLoop_reverse_line_directive :
    AddLineInfo (File.ofSource
        "package p\n//line x.go:1\nimport (\n\t\"a\"\n\t\"b\"\n)\nvar x int\n".toList) 24 1
      = ⟨55, [0, 10, 24, 33, 38, 43, 45], [⟨24, 1⟩]⟩ ∧
    (⟨55, [0, 10, 24, 33, 38, 43, 45], [⟨24, 1⟩]⟩ : File).WF ∧
    importLoop ⟨55, [0, 10, 24, 33, 38, 43, 45], [⟨24, 1⟩]⟩ [⟨34, 37⟩, ⟨39, 42⟩]
      = some ⟨55, [0, 10, 33, 43, 45], [⟨24, 1⟩]⟩ ∧
    importLoop ⟨55, [0, 10, 24, 33, 38, 43, 45], [⟨24, 1⟩]⟩ [⟨34, 37⟩, ⟨39, 42⟩].reverse
      = some ⟨55, [0, 24, 38, 43, 45], [⟨24, 1⟩]⟩ := by
  decide

/-- C8, amended. When no `//line` directive takes effect at or before the end of a
spec of the list, running the import loop over the specs in reverse order gives the
same result as running it in declaration order: the same final line table when it
succeeds, and a panic (`none`) in one order exactly when in the other.  The order
of the `End` offsets plays no role. -/
theorem importLoop_reverse (f : File) (specs : List ImportSpec) (h : f.WF)
    (hdir : ∀ v ∈ specs, f.rawUpTo v.End) :
    importLoop f specs.reverse = importLoop f specs := by
  rw [importLoop_withInfos specs f hdir,
    importLoop_withInfos specs.reverse f (fun v hv => hdir v (List.mem_reverse.1 hv)),
    importLoop_perm (List.reverse_perm specs) f.dropInfos (dropInfos_Plain h)]

/-- Witness of the amended C8 on
`package p\n\nimport (\n\t"a"\n\n\t"b"\n)\n//line x.go:1\nvar x int\n` (alternative position
at offset 47, after the imports): both orders leave `[0, 10, 11, 20, 26, 33, 47]`. -/
theorem importLoop_reverse_witness :
    AddLineInfo (File.ofSource
        "package p\n\nimport (\n\t\"a\"\n\n\t\"b\"\n)\n//line x.go:1\nvar x int\n".toList) 47 1
      = ⟨57, [0, 10, 11, 20, 25, 26, 31, 33, 47], [⟨47, 1⟩]⟩ ∧
    importLoop ⟨57, [0, 10, 11, 20, 25, 26, 31, 33, 47], [⟨47, 1⟩]⟩ [⟨21, 24⟩, ⟨27, 30⟩]
      = some ⟨57, [0, 10, 11, 20, 26, 33, 47], [⟨47, 1⟩]⟩ ∧
    importLoop ⟨57, [0, 10, 11, 20, 25, 26, 31, 33, 47], [⟨47, 1⟩]⟩
        [⟨21, 24⟩, ⟨27, 30⟩].reverse =
      importLoop ⟨57, [0, 10, 11, 20, 25, 26, 31, 33, 47], [⟨47, 1⟩]⟩ [⟨21, 24⟩, ⟨27, 30⟩] :=
  ⟨by decide, by decide, importLoop_reverse _ _ (by decide) (by decide)⟩

/-- Line renumbering by two sibling blocks, `A` before `B`, in either order. -/
theorem shift_comm_disjoint (pA eA pB eB c cA cB cAB cBA : Nat) (hA : pA + 2 ≤ eA)
    (hB : pB + 2 ≤ eB) (hd : eA ≤ pB)
    (h1 : cA = if c ≤ pA then c else if c < eA then c - 1 else c - 2)
    (h2 : cB = if c ≤ pB then c else if c < eB then c - 1 else c - 2)
    (h3 : cAB = if cA ≤ pB - 2 then cA else if cA < eB - 2 then cA - 1 else cA - 2)
    (h4 : cBA = if cB ≤ pA then cB else if cB < eA then cB - 1 else cB - 2) :
    cAB = cBA := by
  split_ifs at h1 h2 <;> split_ifs at h3 h4 <;> omega

/-- Line renumbering by a block `A` and a block `B` nested in it that closes on an
earlier line, in either order. -/
theorem shift_comm_nested (pA eA pB eB c cA cB cAB cBA : Nat)
    (hB : pB + 2 ≤ eB) (hn1 : pA < pB) (hn2 : eB < eA)
    (h1 : cA = if c ≤ pA then c else if c < eA then c - 1 else c - 2)
    (h2 : cB = if c ≤ pB then c else if c < eB then c - 1 else c - 2)
    (h3 : cAB = if cA ≤ pB - 1 then cA else if cA < eB - 1 then cA - 1 else cA - 2)
    (h4 : cBA = if cB ≤ pA then cB else if cB < eA - 2 then cB - 1 else cB - 2) :
    cAB = cBA := by
  split_ifs at h1 h2 <;> split_ifs at h3 h4 <;> omega

/-- Line renumbering by a block `A` and a block `B` nested in it that closes on the
same line `e`, in either order. -/
theorem shift_comm_same_close (a b e c cA cB c1 c2 cAB cBA : Nat)
    (ha : 1 ≤ a) (hab : a < b) (hbe : b + 2 ≤ e) (h5 : 5 ≤ e)
    (h1 : cA = if c ≤ a then c else if c < e then c - 1 else c - 2)
    (h2 : cB = if c ≤ b then c else if c < e then c - 1 else c - 2)
    (h3 : c1 = if b - 1 < cA then cA - 1 else cA)
    (h4 : cAB = if e - 4 < c1 then c1 - 1 else c1)
    (h6 : c2 = if a < cB then cB - 1 else cB)
    (h7 : cBA = if e - 4 < c2 then c2 - 1 else c2) :
    cAB = cBA := by
  split_ifs at h1 h2 <;> split_ifs at h3 h6 <;> split_ifs at h4 h7 <;> omega

/-- The line numbers after `rmEmptyRowInsideBrace` on a block whose end is at least
two lines below its start: lines up to the opening line stay, lines strictly inside
drop by one, lines from the closing line on drop by two. -/
theorem rmEmptyRowInsideBrace_Line (f : File) (bl : BlockStmt) (h : f.Plain)
    (h2 : Line f bl.Pos + 2 ≤ Line f bl.End) :
    ∃ f2, rmEmptyRowInsideBrace f bl = some f2 ∧ f2.Plain ∧ f2.size = f.size ∧
      f2.lines.length + 2 = f.lines.length ∧
      ∀ x, Line f2 x =
        if Line f x ≤ Line f bl.Pos then Line f x
        else if Line f x < Line f bl.End then Line f x - 1 else Line f x - 2 := by
  have ha1 := Line_pos h bl.Pos
  have hle := Line_le_length h bl.End
  have hm1 := MergeLine_of_valid f (Line f bl.Pos) ha1 (by omega)
  generalize (⟨f.size, f.lines.eraseIdx (Line f bl.Pos), f.infos⟩ : File) = f1 at hm1
  have hwf1 := MergeLine_Plain h hm1
  have hL1 := Line_MergeLine h hm1
  have hlen1 := MergeLine_length hm1
  have he1 := hL1 bl.End
  have hm2 := MergeLine_of_valid f1 (Line f1 bl.End - 1)
    (by split_ifs at he1 <;> omega) (by split_ifs at he1 <;> omega)
  generalize (⟨f1.size, f1.lines.eraseIdx (Line f1 bl.End - 1), f1.infos⟩ : File) = f2 at hm2
  have hL2 := Line_MergeLine hwf1 hm2
  have hlen2 := MergeLine_length hm2
  refine ⟨f2, (rmEmptyRowInsideBrace_eq_some_iff f f2 bl).2 ⟨f1, hm1, hm2⟩,
    MergeLine_Plain hwf1 hm2, by rw [MergeLine_size hm2, MergeLine_size hm1], by omega, ?_⟩
  intro x
  have c1 := hL1 x
  have c2 := hL2 x
  split_ifs at he1 c1 c2 ⊢ <;> omega

/-- `rmEmptyRowInsideBrace` on any block that has a line start after its opening
brace: with `k` the argument of the second merge, the call panics when `k = 0`, and
otherwise renumbers the lines by the two merges. -/
theorem rmEmptyRowInsideBrace_general (f : File) (bl : BlockStmt) (h : f.Plain)
    (hlen : Line f bl.Pos < f.lines.length) (k : Nat)
    (hk : k + 1 = if Line f bl.Pos < Line f bl.End then Line f bl.End - 1
      else Line f bl.End) :
    (k = 0 → rmEmptyRowInsideBrace f bl = none) ∧
    (1 ≤ k → ∃ f2, rmEmptyRowInsideBrace f bl = some f2 ∧ f2.Plain ∧ f2.size = f.size ∧
      ∀ x c1, c1 = (if Line f bl.Pos < Line f x then Line f x - 1 else Line f x) →
        Line f2 x = if k < c1 then c1 - 1 else c1) := by
  have ha1 := Line_pos h bl.Pos
  have hle := Line_le_length h bl.End
  have hm1 := MergeLine_of_valid f (Line f bl.Pos) ha1 hlen
  generalize (⟨f.size, f.lines.eraseIdx (Line f bl.Pos), f.infos⟩ : File) = f1 at hm1
  have hwf1 := MergeLine_Plain h hm1
  have hL1 := Line_MergeLine h hm1
  have hlen1 := MergeLine_length hm1
  have he1 := hL1 bl.End
  have hk2 : Line f1 bl.End - 1 = k := by rw [he1, ← hk]; omega
  have hrm : rmEmptyRowInsideBrace f bl = MergeLine f1 k := by
    simp only [rmEmptyRowInsideBrace, hm1, hk2]
  constructor
  · intro h0
    rw [hrm]
    exact (MergeLine_eq_none_iff f1 k).2 (Or.inl (by omega))
  · intro h1
    have hm2 := MergeLine_of_valid f1 k h1 (by split_ifs at hk <;> omega)
    generalize (⟨f1.size, f1.lines.eraseIdx k, f1.infos⟩ : File) = f2 at hm2
    refine ⟨f2, by rw [hrm, hm2], MergeLine_Plain hwf1 hm2,
      by rw [MergeLine_size hm2, MergeLine_size hm1], ?_⟩
    intro x c1 hc1
    rw [Line_MergeLine hwf1 hm2 x, hL1 x, ← hc1]

/-- C7, counterexample. In `package p\n\nfunc f() {\n\tif a {\n\t} else {\n\t}\n\n\treturn\n}\n`
the two blocks of the `if` statement (braces at 28, 31 and at 38, 41) give different
tables in the two visiting orders, both without panic.  In
`package p\n\nfunc f() {\n\tfor { for {\n\t\tx()\n\t}\n\n\t}\n}\n` the outer `for` block
(braces at 27, 46) and the inner one (braces at 33, 42) open on the same line, each
ends at least two lines below its opening brace, and the two orders differ too.  In
`package p\n\n//line x.go:1\nfunc f() {\n\n\tx()\n\n}\n\nfunc g() {\n\n\ty()\n\n}\n` (alternative
position at offset 25, line 1) the bodies of `f` (braces at 34, 43) and `g` (braces
at 55, 64) are siblings of five lines each, and the two orders differ. -/
theorem inspectBlocks_order_matters :
    File.ofSource
      "package p\n\nfunc f() \x7b\n\tif a \x7b\n\t\x7d else \x7b\n\t\x7d\n\n\treturn\n\x7d\n".toList
      = ⟨54, [0, 10, 11, 22, 30, 40, 43, 44, 52], []⟩ ∧
    inspectBlocks ⟨54, [0, 10, 11, 22, 30, 40, 43, 44, 52], []⟩ [⟨28, 31⟩, ⟨38, 41⟩]
      = some ⟨54, [0, 10, 43, 44, 52], []⟩ ∧
    inspectBlocks ⟨54, [0, 10, 11, 22, 30, 40, 43, 44, 52], []⟩ [⟨38, 41⟩, ⟨28, 31⟩]
      = some ⟨54, [0, 10, 11, 44, 52], []⟩ ∧
    File.ofSource
      "package p\n\nfunc f() \x7b\n\tfor \x7b for \x7b\n\t\tx()\n\t\x7d\n\n\t\x7d\n\x7d\n".toList
      = ⟨50, [0, 10, 11, 22, 35, 41, 44, 45, 48], []⟩ ∧
    inspectBlocks ⟨50, [0, 10, 11, 22, 35, 41, 44, 45, 48], []⟩ [⟨27, 46⟩, ⟨33, 42⟩]
      = some ⟨50, [0, 10, 11, 44, 48], []⟩ ∧
    inspectBlocks ⟨50, [0, 10, 11, 22, 35, 41, 44, 45, 48], []⟩ [⟨33, 42⟩, ⟨27, 46⟩]
      = some ⟨50, [0, 10, 11, 22, 48], []⟩ ∧
    AddLineInfo (File.ofSource
      "package p\n\n//line x.go:1\nfunc f() \x7b\n\n\tx()\n\n\x7d\n\nfunc g() \x7b\n\n\ty()\n\n\x7d\n".toList)
        25 1
      = ⟨66, [0, 10, 11, 25, 36, 37, 42, 43, 45, 46, 57, 58, 63, 64], [⟨25, 1⟩]⟩ ∧
    inspectBlocks ⟨66, [0, 10, 11, 25, 36, 37, 42, 43, 45, 46, 57, 58, 63, 64], [⟨25, 1⟩]⟩
        [⟨34, 43⟩, ⟨55, 64⟩]
      = some ⟨66, [0, 11, 25, 36, 42, 43, 46, 57, 63, 64], [⟨25, 1⟩]⟩ ∧
    inspectBlocks ⟨66, [0, 10, 11, 25, 36, 37, 42, 43, 45, 46, 57, 58, 63, 64], [⟨25, 1⟩]⟩
        [⟨55, 64⟩, ⟨34, 43⟩]
      = some ⟨66, [0, 11, 25, 37, 42, 45, 46, 58, 63, 64], [⟨25, 1⟩]⟩ := by
  decide

/-- The two visiting orders on a table without `//line` directives. -/
theorem inspectBlocks_comm_plain (f : File) (A B : BlockStmt) (hP : f.Plain)
    (hA : Line f A.Pos + 2 ≤ Line f A.End) (hB : Line f B.Pos + 2 ≤ Line f B.End)
    (hAB : Line f A.End ≤ Line f B.Pos ∨
      (Line f A.Pos < Line f B.Pos ∧ Line f B.End ≤ Line f A.End)) :
    inspectBlocks f [A, B] = inspectBlocks f [B, A] ∧
    (¬ (Line f B.Pos = 2 ∧ Line f B.End = 4 ∧ Line f A.End = 4) →
      ∃ g, inspectBlocks f [A, B] = some g) := by
  obtain ⟨fA, hfA, hwA, hsA, hnA, hLA⟩ := rmEmptyRowInsideBrace_Line f A hP hA
  obtain ⟨fB, hfB, hwB, hsB, hnB, hLB⟩ := rmEmptyRowInsideBrace_Line f B hP hB
  have hpa := Line_pos hP A.Pos
  have hlA := Line_le_length hP A.End
  have hlB := Line_le_length hP B.End
  have key : ∀ fAB fBA : File, rmEmptyRowInsideBrace fA B = some fAB →
      rmEmptyRowInsideBrace fB A = some fBA → fAB = fBA →
      inspectBlocks f [A, B] = inspectBlocks f [B, A] ∧
      (¬ (Line f B.Pos = 2 ∧ Line f B.End = 4 ∧ Line f A.End = 4) →
        ∃ g, inspectBlocks f [A, B] = some g) := by
    intro fAB fBA hfAB hfBA heq
    have e1 : inspectBlocks f [A, B] = some fAB := by
      simp only [inspectBlocks, hfA, hfAB]
    have e2 : inspectBlocks f [B, A] = some fAB := by
      simp only [inspectBlocks, hfB, hfBA, heq]
    exact ⟨by rw [e1, e2], fun _ => ⟨fAB, e1⟩⟩
  rcases hAB with hd | ⟨hn1, hn2⟩
  · have a1 : Line fA B.Pos = Line f B.Pos - 2 := by
      rw [hLA, if_neg (by omega), if_neg (by omega)]
    have a2 : Line fA B.End = Line f B.End - 2 := by
      rw [hLA, if_neg (by omega), if_neg (by omega)]
    have b1 : Line fB A.Pos = Line f A.Pos := by rw [hLB, if_pos (by omega)]
    have b2 : Line fB A.End = Line f A.End := by rw [hLB, if_pos (by omega)]
    obtain ⟨fAB, hfAB, hwAB, hsAB, -, hLAB⟩ := rmEmptyRowInsideBrace_Line fA B hwA
      (by omega)
    obtain ⟨fBA, hfBA, hwBA, hsBA, -, hLBA⟩ := rmEmptyRowInsideBrace_Line fB A hwB
      (by omega)
    refine key fAB fBA hfAB hfBA ?_
    apply File.eq_of_Line hwAB hwBA (by rw [hsAB, hsBA, hsA, hsB])
    intro x
    exact shift_comm_disjoint (Line f A.Pos) (Line f A.End) (Line f B.Pos) (Line f B.End)
      (Line f x) (Line fA x) (Line fB x) (Line fAB x) (Line fBA x) hA hB hd
      (hLA x) (hLB x) (by rw [← a1, ← a2]; exact hLAB x)
      (by rw [← b1, ← b2]; exact hLBA x)
  · have a1 : Line fA B.Pos = Line f B.Pos - 1 := by
      rw [hLA, if_neg (by omega), if_pos (by omega)]
    have b1 : Line fB A.Pos = Line f A.Pos := by rw [hLB, if_pos (by omega)]
    have b2 : Line fB A.End = Line f A.End - 2 := by
      rw [hLB, if_neg (by omega), if_neg (by omega)]
    rcases Nat.lt_or_ge (Line f B.End) (Line f A.End) with hlt | hge
    · have a2 : Line fA B.End = Line f B.End - 1 := by
        rw [hLA, if_neg (by omega), if_pos (by omega)]
      obtain ⟨fAB, hfAB, hwAB, hsAB, -, hLAB⟩ := rmEmptyRowInsideBrace_Line fA B hwA
        (by omega)
      obtain ⟨fBA, hfBA, hwBA, hsBA, -, hLBA⟩ := rmEmptyRowInsideBrace_Line fB A hwB
        (by omega)
      refine key fAB fBA hfAB hfBA ?_
      apply File.eq_of_Line hwAB hwBA (by rw [hsAB, hsBA, hsA, hsB])
      intro x
      exact shift_comm_nested (Line f A.Pos) (Line f A.End) (Line f B.Pos) (Line f B.End)
        (Line f x) (Line fA x) (Line fB x) (Line fAB x) (Line fBA x) hB hn1 hlt
        (hLA x) (hLB x) (by rw [← a1, ← a2]; exact hLAB x)
        (by rw [← b1, ← b2]; exact hLBA x)
    · have hee : Line f B.End = Line f A.End := by omega
      have a2 : Line fA B.End = Line f A.End - 2 := by
        rw [hLA, if_neg (by omega), if_neg (by omega)]
        omega
      obtain ⟨nAB, sAB⟩ := rmEmptyRowInsideBrace_general fA B hwA (by omega)
        (Line f A.End - 4) (by rw [a1, a2, if_pos (by omega)]; omega)
      obtain ⟨nBA, sBA⟩ := rmEmptyRowInsideBrace_general fB A hwB (by omega)
        (Line f A.End - 4) (by rw [b1, b2, if_pos (by omega)]; omega)
      by_cases h5 : 5 ≤ Line f A.End
      · obtain ⟨fAB, hfAB, hwAB, hsAB, hLAB⟩ := sAB (by omega)
        obtain ⟨fBA, hfBA, hwBA, hsBA, hLBA⟩ := sBA (by omega)
        refine key fAB fBA hfAB hfBA ?_
        apply File.eq_of_Line hwAB hwBA (by rw [hsAB, hsBA, hsA, hsB])
        intro x
        have hLB2 := hLB x
        rw [hee] at hLB2
        exact shift_comm_same_close (Line f A.Pos) (Line f B.Pos) (Line f A.End)
          (Line f x) (Line fA x) (Line fB x) _ _ (Line fAB x) (Line fBA x)
          hpa hn1 (by omega) h5 (hLA x) hLB2 rfl
          (by rw [← a1]; exact hLAB x _ rfl) rfl
          (by rw [← b1]; exact hLBA x _ rfl)
      · have n1 := nAB (by omega)
        have n2 := nBA (by omega)
        refine ⟨by simp only [inspectBlocks, hfA, hfB, n1, n2], ?_⟩
        intro hc
        exact absurd ⟨by omega, by omega, by omega⟩ hc

/-- C7, amended. When no `//line` directive takes effect at or before a brace of the
two blocks, take blocks `A` and `B` that each end at least two lines below their
opening brace, and such that either `A` ends no later than the line on which `B`
opens, or `B` lies inside `A` with its opening brace on a later line than that of
`A`.  Then visiting `A` before `B` and `B` before `A` give the same result: the same
final line table, or a panic in both orders.  Both orders succeed unless `B` opens
on line 2 and both blocks end on line 4. -/
theorem inspectBlocks_comm (f : File) (A B : BlockStmt) (h : f.WF)
    (hdir : ∀ bl ∈ [A, B], f.rawUpTo bl.Pos ∧ f.rawUpTo bl.End)
    (hA : Line f A.Pos + 2 ≤ Line f A.End) (hB : Line f B.Pos + 2 ≤ Line f B.End)
    (hAB : Line f A.End ≤ Line f B.Pos ∨
      (Line f A.Pos < Line f B.Pos ∧ Line f B.End ≤ Line f A.End)) :
    inspectBlocks f [A, B] = inspectBlocks f [B, A] ∧
    (¬ (Line f B.Pos = 2 ∧ Line f B.End = 4 ∧ Line f A.End = 4) →
      ∃ g, inspectBlocks f [A, B] = some g) := by
  have dA := hdir A (by simp)
  have dB := hdir B (by simp)
  have e : ∀ p, f.rawUpTo p → Line f p = Line f.dropInfos p := fun p hp => by
    rw [Line_of_rawUpTo hp, Line_dropInfos]
  rw [e _ dA.1, e _ dA.2] at hA
  rw [e _ dB.1, e _ dB.2] at hB
  rw [e _ dA.1, e _ dA.2, e _ dB.1, e _ dB.2] at hAB
  rw [e _ dA.2, e _ dB.1, e _ dB.2]
  obtain ⟨heq, hsome⟩ := inspectBlocks_comm_plain f.dropInfos A B (dropInfos_Plain h) hA hB hAB
  have hdir2 : ∀ bl ∈ [B, A], f.rawUpTo bl.Pos ∧ f.rawUpTo bl.End := by
    intro bl hbl
    exact hdir bl (by simp at hbl ⊢; tauto)
  rw [inspectBlocks_withInfos [A, B] f hdir, inspectBlocks_withInfos [B, A] f hdir2, heq]
  refine ⟨rfl, fun hne => ?_⟩
  obtain ⟨g, hg⟩ := hsome hne
  exact ⟨File.withInfos f.infos g, by rw [← heq, hg]; rfl⟩

/-- Witness of the amended C7: in
`package p\n\nfunc f() {\n\tif a {\n\t} else {\n\n\tx()\n\t}\n}\n//line x.go:1\nvar x int\n` the
body of `f` (braces at 20 and 49) and the nested `else` block (braces at 38 and 47);
the alternative position of the directive is at offset 65, after both blocks. -/
theorem inspectBlocks_comm_witness :
    AddLineInfo (File.ofSource
      "package p\n\nfunc f() \x7b\n\tif a \x7b\n\t\x7d else \x7b\n\n\tx()\n\t\x7d\n\x7d\n//line x.go:1\nvar x int\n".toList)
        65 1
      = ⟨75, [0, 10, 11, 22, 30, 40, 41, 46, 49, 51, 65], [⟨65, 1⟩]⟩ ∧
    inspectBlocks ⟨75, [0, 10, 11, 22, 30, 40, 41, 46, 49, 51, 65], [⟨65, 1⟩]⟩
        [⟨20, 49⟩, ⟨38, 47⟩]
      = some ⟨75, [0, 10, 11, 30, 41, 51, 65], [⟨65, 1⟩]⟩ ∧
    inspectBlocks ⟨75, [0, 10, 11, 22, 30, 40, 41, 46, 49, 51, 65], [⟨65, 1⟩]⟩
        [⟨20, 49⟩, ⟨38, 47⟩]
      = inspectBlocks ⟨75, [0, 10, 11, 22, 30, 40, 41, 46, 49, 51, 65], [⟨65, 1⟩]⟩
        [⟨38, 47⟩, ⟨20, 49⟩] ∧
    ∃ g, inspectBlocks ⟨75, [0, 10, 11, 22, 30, 40, 41, 46, 49, 51, 65], [⟨65, 1⟩]⟩
        [⟨20, 49⟩, ⟨38, 47⟩] = some g :=
  ⟨by decide, by decide,
    (inspectBlocks_comm _ ⟨20, 49⟩ ⟨38, 47⟩ (by decide) (by decide) (by decide) (by decide)
      (by decide)).1,
    (inspectBlocks_comm ⟨75, [0, 10, 11, 22, 30, 40, 41, 46, 49, 51, 65], [⟨65, 1⟩]⟩
      ⟨20, 49⟩ ⟨38, 47⟩ (by decide) (by decide) (by decide) (by decide) (by decide)).2
      (by decide)⟩

/-! ## Repeating a merge -/

/-- C6, counterexample. On `func f() {\n\n\n  x := 1\n}` a second call for the same
block (braces at 9 and 22) deletes two more line starts.  On
`func f() { for {\n\n\nx()\n} }` the opening brace of the inner block (offset 15) is
on the line of the outer one (offset 9), and after the outer block has been treated
the opening merge of the inner block still deletes a line start. -/
theorem rmEmptyRowInsideBrace_second_call :
    rmEmptyRowInsideBrace ⟨23, [0, 11, 12, 13, 22], []⟩ ⟨9, 22⟩
      = some ⟨23, [0, 12, 13], []⟩ ∧
    rmEmptyRowInsideBrace ⟨23, [0, 12, 13], []⟩ ⟨9, 22⟩ = some ⟨23, [0], []⟩ ∧
    File.ofSource "func f() \x7b for \x7b\n\n\nx()\n\x7d \x7d".toList
      = ⟨26, [0, 17, 18, 19, 23], []⟩ ∧
    Line ⟨26, [0, 17, 18, 19, 23], []⟩ 9 = Line ⟨26, [0, 17, 18, 19, 23], []⟩ 15 ∧
    rmEmptyRowInsideBrace ⟨26, [0, 17, 18, 19, 23], []⟩ ⟨9, 25⟩
      = some ⟨26, [0, 18, 19], []⟩ ∧
    MergeLine ⟨26, [0, 18, 19], []⟩ (Line ⟨26, [0, 18, 19], []⟩ 15)
      = some ⟨26, [0, 19], []⟩ := by
  decide

/-- C6, amended. No merge is a no-op: a successful `rmEmptyRowInsideBrace` deletes two
line starts, a second successful call for the same block deletes two more, and a
successful opening merge of any other block deletes one more; the table after them
is never the table before them. -/
theorem rmEmptyRowInsideBrace_not_idempotent (f f1 : File) (bl : BlockStmt)
    (h1 : rmEmptyRowInsideBrace f bl = some f1) :
    f1.lines.length + 2 = f.lines.length ∧
    (∀ f2, rmEmptyRowInsideBrace f1 bl = some f2 →
      f2.lines.length + 2 = f1.lines.length ∧ f2 ≠ f1) ∧
    (∀ (bl2 : BlockStmt) f3, MergeLine f1 (Line f1 bl2.Pos) = some f3 →
      f3.lines.length + 1 = f1.lines.length ∧ f3 ≠ f1) := by
  have two : ∀ g g2 : File, rmEmptyRowInsideBrace g bl = some g2 →
      g2.lines.length + 2 = g.lines.length := by
    intro g g2 hg
    obtain ⟨g1, e1, e2⟩ := (rmEmptyRowInsideBrace_eq_some_iff g g2 bl).1 hg
    have := MergeLine_length e1
    have := MergeLine_length e2
    omega
  refine ⟨two f f1 h1, ?_, ?_⟩
  · intro f2 h2
    have := two f1 f2 h2
    refine ⟨this, ?_⟩
    intro hc
    rw [hc] at this
    omega
  · intro bl2 f3 h3
    have := MergeLine_length h3
    refine ⟨this, ?_⟩
    intro hc
    rw [hc] at this
    omega

/-- Witness of the amended C6 on `func f() {\n\n\n  x := 1\n}`. -/
theorem rmEmptyRowInsideBrace_not_idempotent_witness :
    (⟨23, [0, 12, 13], []⟩ : File).lines.length + 2
        = (⟨23, [0, 11, 12, 13, 22], []⟩ : File).lines.length ∧
    (∀ f2, rmEmptyRowInsideBrace ⟨23, [0, 12, 13], []⟩ ⟨9, 22⟩ = some f2 →
      f2.lines.length + 2 = (⟨23, [0, 12, 13], []⟩ : File).lines.length ∧
        f2 ≠ ⟨23, [0, 12, 13], []⟩) ∧
    (∀ (bl2 : BlockStmt) f3,
      MergeLine ⟨23, [0, 12, 13], []⟩ (Line ⟨23, [0, 12, 13], []⟩ bl2.Pos) = some f3 →
      f3.lines.length + 1 = (⟨23, [0, 12, 13], []⟩ : File).lines.length ∧
        f3 ≠ ⟨23, [0, 12, 13], []⟩) :=
  rmEmptyRowInsideBrace_not_idempotent ⟨23, [0, 11, 12, 13, 22], []⟩ ⟨23, [0, 12, 13], []⟩
    ⟨9, 22⟩ (by decide)

/-! ## The import loop -/

/-- C9, the code at failing inputs.  In `package p\n\nimport "a"\n\nfunc f() {\n}\n`
the list of imports has one spec, ending at offset 21, and the loop deletes the line
start 22: the table is changed, the line of the import being merged with the blank
line after the declaration.  In `package p\n\nimport "a"\n\nimport "b"\n\nvar x int\n` the first
declaration ends at 21 and the second starts at 23: they are two lines apart before
the loop and one line apart after it. -/
theorem importLoop_single_changes :
    File.ofSource "package p\n\nimport \"a\"\n\nfunc f() \x7b\n\x7d\n".toList
      = ⟨36, [0, 10, 11, 22, 23, 34], []⟩ ∧
    (⟨36, [0, 10, 11, 22, 23, 34], []⟩ : File).WF ∧
    importLoop ⟨36, [0, 10, 11, 22, 23, 34], []⟩ [⟨18, 21⟩]
      = some ⟨36, [0, 10, 11, 23, 34], []⟩ ∧
    File.ofSource "package p\n\nimport \"a\"\n\nimport \"b\"\n\nvar x int\n".toList
      = ⟨45, [0, 10, 11, 22, 23, 34, 35], []⟩ ∧
    (⟨45, [0, 10, 11, 22, 23, 34, 35], []⟩ : File).WF ∧
    importLoop ⟨45, [0, 10, 11, 22, 23, 34, 35], []⟩ [⟨18, 21⟩, ⟨30, 33⟩]
      = some ⟨45, [0, 10, 11, 23, 35], []⟩ ∧
    Line ⟨45, [0, 10, 11, 22, 23, 34, 35], []⟩ 23
      = Line ⟨45, [0, 10, 11, 22, 23, 34, 35], []⟩ 21 + 2 ∧
    Line ⟨45, [0, 10, 11, 23, 35], []⟩ 23 = Line ⟨45, [0, 10, 11, 23, 35], []⟩ 21 + 1 := by
  decide

/-- C2, the code at failing inputs.  In `package p\n\nimport (\n\t"a"\n\n\n\t"b"\n)\n` two
blank lines separate the two specs of the group (`"a"` ends at 24, `"b"` starts at
28 and ends at 31).  The loop succeeds, deletes the line starts 25 and 32, and
leaves `"b"` two logical lines below the end of `"a"`: a blank logical line remains
in the group.  The same on the text of the example of the specification with one more
blank line, `import (\n  "a"\n\n\n  "b"\n)`. -/
theorem importLoop_two_blank_lines :
    File.ofSource "package p\n\nimport (\n\t\"a\"\n\n\n\t\"b\"\n)\n".toList
      = ⟨34, [0, 10, 11, 20, 25, 26, 27, 32], []⟩ ∧
    (⟨34, [0, 10, 11, 20, 25, 26, 27, 32], []⟩ : File).WF ∧
    importLoop ⟨34, [0, 10, 11, 20, 25, 26, 27, 32], []⟩ [⟨21, 24⟩, ⟨28, 31⟩]
      = some ⟨34, [0, 10, 11, 20, 26, 27], []⟩ ∧
    Line ⟨34, [0, 10, 11, 20, 26, 27], []⟩ 24 = 4 ∧
    Line ⟨34, [0, 10, 11, 20, 26, 27], []⟩ 28 = 6 ∧
    File.ofSource "import (\n  \"a\"\n\n\n  \"b\"\n)".toList
      = ⟨24, [0, 9, 15, 16, 17, 23], []⟩ ∧
    importLoop ⟨24, [0, 9, 15, 16, 17, 23], []⟩ [⟨11, 14⟩, ⟨19, 22⟩]
      = some ⟨24, [0, 9, 16, 17], []⟩ ∧
    Line ⟨24, [0, 9, 16, 17], []⟩ 14 = 2 ∧ Line ⟨24, [0, 9, 16, 17], []⟩ 19 = 4 := by
  decide

/-! ## `run`: the batch -/

/-- The first loop of `run` only grows the error list, and it returns with a
non-empty one when some file is not processed successfully. -/
theorem processAll_errs {Err Code : Type} (parseFile : String → Except Err ParsedFile)
    (print : String → ParsedFile → File → Except Err Code) :
    ∀ (files : List String) (m : List (String × Code)) (errs : List Err)
      (r : List (String × Code) × List Err),
      processAll parseFile print files m errs = some r →
      errs.length ≤ r.2.length ∧
      ((∃ file ∈ files, ∀ code, processFile parseFile print file ≠ some (.ok code)) →
        0 < r.2.length) := by
  intro files
  induction files with
  | nil =>
    intro m errs r hr
    simp only [processAll, Option.some.injEq] at hr
    subst hr
    exact ⟨le_rfl, by rintro ⟨file, hm, -⟩; simp at hm⟩
  | cons file files ih =>
    intro m errs r hr
    cases hp : processFile parseFile print file with
    | none => simp [processAll, hp] at hr
    | some res =>
      cases res with
      | error err =>
        simp only [processAll, hp] at hr
        obtain ⟨h1, -⟩ := ih m (errs ++ [err]) r hr
        simp only [List.length_append, List.length_singleton] at h1
        exact ⟨by omega, fun _ => by omega⟩
      | ok code =>
        simp only [processAll, hp] at hr
        obtain ⟨h1, h2⟩ := ih (mapSet m file code) errs r hr
        refine ⟨h1, ?_⟩
        rintro ⟨g, hg, hbad⟩
        rcases List.mem_cons.1 hg with rfl | hg2
        · exact absurd hp (hbad code)
        · exact h2 ⟨g, hg2, hbad⟩

/-- The half of the batch guarantee that holds of the program: when some file of the
batch is not processed successfully (a parse error, or a panic), `run` performs no
effect, so nothing is written, for either value of `writeToFile`. -/
theorem run_no_effect {Err Code : Type} (parseFile : String → Except Err ParsedFile)
    (print : String → ParsedFile → File → Except Err Code)
    (writeFile : String → Code → Option Err)
    (rangeOrder : List (String × Code) → List (String × Code))
    (writeToFile : Bool) (files : List String)
    (hbad : ∃ file ∈ files, ∀ code, processFile parseFile print file ≠ some (.ok code)) :
    (run parseFile print writeFile rangeOrder writeToFile files).2 = [] := by
  unfold run
  cases hp : processAll parseFile print files [] [] with
  | none => rfl
  | some r =>
    have := (processAll_errs parseFile print files [] [] r hp).2 hbad
    simp only [gt_iff_lt, this, if_true]

/-- C3, the code at a failing input.  In the batch `bad.go`, `one.go` the first file
has a parse error and the second is `package p\nfunc f() {}\n`: `processFile` returns
the error for `bad.go` and panics in `MergeLine` for `one.go`, so `run` does not
return the error list (in either mode), where the claim says it returns exactly the
error of `bad.go`.  Nothing is written.  With a second file that is processed
without panic, `run` returns the error as claimed. -/
theorem run_panics_in_batch :
    File.ofSource "package p\nfunc f() \x7b\x7d\n".toList = ⟨22, [0, 10], []⟩ ∧
    processFile batchParse batchPrint "bad.go"
      = some (.error "bad.go:1:1: expected package, found EOF") ∧
    processFile batchParse batchPrint "one.go" = none ∧
    run batchParse batchPrint (fun _ _ => none) id true ["bad.go", "one.go"]
      = (none, []) ∧
    run batchParse batchPrint (fun _ _ => none) id false ["bad.go", "one.go"]
      = (none, []) ∧
    run batchParse batchPrint (fun _ _ => none) id true ["bad.go", "two.go"]
      = (some ["bad.go:1:1: expected package, found EOF"], []) :=
  ⟨by decide, rfl, rfl, rfl, rfl, rfl⟩

end MyGoFmt
